import Mathlib

/-!
# Verification of the PO/invoice reconciliation core

A shallow embedding of the reconciliation core of `batch_po_invoice_app.py`:
the similarity scorer `token_similarity` (which blends a token-Jaccard
overlap with `difflib.SequenceMatcher.ratio`) and the greedy reconciler
`compare_structures`.

Modelling conventions:
* Python floats are modelled as exact rationals (`ℚ`); all score arithmetic
  in the source is a composition of integer divisions and averages, so the
  rational value is the ideal value the float computation approximates.
* Dictionary items are records of `Option String` fields; `none` models an
  absent key, and `d.get(key, "")` is modelled by `Option.getD · ""`.
  Scalar field values are modelled by their Python `str()` image, which is
  the only way the reconciler ever consumes them.
* `difflib.SequenceMatcher` (with `isjunk=None`) is modelled faithfully:
  `b2j` with the autojunk purge of popular elements, the `find_longest_match`
  dynamic program with its two non-junk extension loops (the junk extension
  loops can never fire because `bjunk` is empty when `isjunk is None`), and
  the recursive block decomposition of `get_matching_blocks`.  The model
  returns the blocks unsorted and without the collapsing pass and final
  dummy block, which do not change the total match count used by `ratio`.
  The recursion of the block decomposition is fuelled; the initial fuel
  `|a| + |b| + 1` exceeds the recursion depth of every actual run.
* Python's `round(x, 2)` (banker's rounding on binary floats) is modelled by
  rounding the exact rational to the nearest hundredth; no property proved
  here depends on the behaviour at exact half-cent ties.
-/
/-- A line item extracted from a document.  Each field models the Python
dictionary entry for the corresponding key: `none` is an absent key, and a
present value is represented by its `str()` image. -/
structure LineItem where
  description : Option String := none
  qty : Option String := none
  unit_price : Option String := none
  total : Option String := none
deriving DecidableEq, Repr

/-- A structured document.  The reconciliation core only ever reads the
`items` key (`none` models a document dictionary without that key); the
remaining keys (`document_type`, `number`, `vendor`, `date`, `grand_total`)
are never consumed and are omitted. -/
structure DocumentStruct where
  items : Option (List LineItem) := none
deriving DecidableEq, Repr

/-- One output row of `compare_structures`. -/
structure ComparisonRow where
  po_item : String
  po_qty : String
  po_price : String
  po_total : String
  invoice_item : String
  invoice_qty : String
  invoice_price : String
  invoice_total : String
  status : String
  match_score : ℚ
deriving DecidableEq, Repr

/-- The all-blank row, used as the default for out-of-range list reads. -/
def defaultRow : ComparisonRow :=
  { po_item := "", po_qty := "", po_price := "", po_total := "",
    invoice_item := "", invoice_qty := "", invoice_price := "",
    invoice_total := "", status := "", match_score := 0 }

instance : Inhabited ComparisonRow := ⟨defaultRow⟩

/-- `po_struct.get("items", []) if po_struct else []`. -/
def getItems : Option DocumentStruct → List LineItem
  | none => []
  | some s => s.items.getD []

/-- A regex `\w` word character (over the ASCII range the inputs use). -/
def isWordChar (c : Char) : Bool := c.isAlphanum || c = '_'

/-- Python `str.lower()` (ASCII case mapping). -/
def lowerStr (s : String) : String := String.mk (s.data.map Char.toLower)

/-- Accumulating scan extracting maximal runs of word characters. -/
def tokenizeAux : List Char → List Char → List String
  | [], acc => if acc.isEmpty then [] else [String.mk acc.reverse]
  | c :: cs, acc =>
    if isWordChar c then tokenizeAux cs (c :: acc)
    else if acc.isEmpty then tokenizeAux cs []
    else String.mk acc.reverse :: tokenizeAux cs []

/-- `re.findall(r"\w+", s)`: the maximal word-character runs of `s`. -/
def wordTokens (s : String) : List String := tokenizeAux s.data []

/-- `len(a_tokens & b_tokens)`: the number of shared word tokens. -/
def tokInter (a b : String) : ℕ :=
  ((wordTokens (lowerStr a)).toFinset ∩ (wordTokens (lowerStr b)).toFinset).card

/-- `len(a_tokens | b_tokens)`: the number of distinct word tokens overall. -/
def tokUnion (a b : String) : ℕ :=
  ((wordTokens (lowerStr a)).toFinset ∪ (wordTokens (lowerStr b)).toFinset).card

/-- The token-overlap component of the scorer (line 65-67 of the source):
`len(a_tokens & b_tokens) / max(len(a_tokens | b_tokens), 1)` over the sets
of word tokens of the lowercased strings. -/
def tokenOverlap (a b : String) : ℚ :=
  (tokInter a b : ℚ) / ((max (tokUnion a b) 1 : ℕ) : ℚ)

/-- `self.b2j` after `__chain_b`: the (ascending) list of positions of `c`
in `b`, with popular elements purged by the autojunk heuristic when
`len(b) >= 200`. -/
def b2j (b : List Char) (c : Char) : List Nat :=
  let idxs := (List.range b.length).filter (fun j => b.get? j == some c)
  if 200 ≤ b.length ∧ b.length / 100 + 1 < idxs.length then [] else idxs

/-- The inner loop of `find_longest_match` for one row `i`: walk the
candidate positions `js` of `a[i]` in `b`, computing
`k = j2len.get(j-1, 0) + 1`, recording it in `newj2len`, and updating the
best block on strict improvement. -/
def flmRow (j2len : Nat → Nat) (i : Nat) :
    List Nat → (Nat → Nat) → Nat → Nat → Nat → (Nat → Nat) × Nat × Nat × Nat
  | [], nj2, bi, bj, bs => (nj2, bi, bj, bs)
  | j :: js, nj2, bi, bj, bs =>
    let k := (if j = 0 then 0 else j2len (j - 1)) + 1
    let nj2' : Nat → Nat := fun x => if x = j then k else nj2 x
    if bs < k then flmRow j2len i js nj2' (i + 1 - k) (j + 1 - k) k
    else flmRow j2len i js nj2' bi bj bs

/-- The outer loop of `find_longest_match`: one `flmRow` per row
`i ∈ range(alo, ahi)`; the `continue`/`break` on `j < blo` / `j >= bhi` is
the filter (the position lists are ascending). -/
def flmLoop (a b : List Char) (blo bhi : Nat) :
    List Nat → (Nat → Nat) → Nat → Nat → Nat → Nat × Nat × Nat
  | [], _, bi, bj, bs => (bi, bj, bs)
  | i :: is, j2len, bi, bj, bs =>
    let js := (b2j b (a.getD i ' ')).filter (fun j => decide (blo ≤ j) && decide (j < bhi))
    let (nj2, bi', bj', bs') := flmRow j2len i js (fun _ => 0) bi bj bs
    flmLoop a b blo bhi is nj2 bi' bj' bs'

/-- The first extension loop of `find_longest_match`: grow the block to the
left over equal elements (`bjunk` is empty for `isjunk=None`, so the junk
test in the source is vacuous).  Structural recursion on `besti`, which the
loop strictly decreases. -/
def extendLeft (a b : List Char) (alo blo : Nat) : Nat → Nat → Nat → Nat × Nat × Nat
  | 0, bj, bs => (0, bj, bs)
  | bi + 1, bj, bs =>
    if alo < bi + 1 ∧ blo < bj ∧ (a.get? bi).isSome ∧ a.get? bi = b.get? (bj - 1)
    then extendLeft a b alo blo bi (bj - 1) (bs + 1)
    else (bi + 1, bj, bs)

/-- The second extension loop of `find_longest_match`: grow the block to the
right over equal elements.  The loop strictly increases `besti + bestsize`
while keeping it below `ahi`, so running it on `ahi` fuel is exact. -/
def extendRight (a b : List Char) (ahi bhi bi bj : Nat) : Nat → Nat → Nat
  | 0, bs => bs
  | fuel + 1, bs =>
    if bi + bs < ahi ∧ bj + bs < bhi ∧ (a.get? (bi + bs)).isSome ∧ a.get? (bi + bs) = b.get? (bj + bs)
    then extendRight a b ahi bhi bi bj fuel (bs + 1)
    else bs

/-- `find_longest_match(alo, ahi, blo, bhi)`: dynamic program followed by
the two (non-junk) extension loops.  The final two junk extension loops of
the source never fire because `self.bjunk` is empty when `isjunk is None`. -/
def findLongestMatch (a b : List Char) (alo ahi blo bhi : Nat) : Nat × Nat × Nat :=
  let r0 := flmLoop a b blo bhi (List.range' alo (ahi - alo)) (fun _ => 0) alo blo 0
  let r1 := extendLeft a b alo blo r0.1 r0.2.1 r0.2.2
  let bs2 := extendRight a b ahi bhi r1.1 r1.2.1 ahi r1.2.2
  (r1.1, r1.2.1, bs2)

/-- The block decomposition of `get_matching_blocks`, as the recursion the
source's worklist loop implements: recurse left and right of the longest
match under the same guards (`alo < i and blo < j`, `i+k < ahi and j+k < bhi`).
The source then sorts, collapses adjacent blocks and appends a zero-size
dummy; none of that changes the total size, which is all `ratio` consumes.
The fuel only forces termination; `|a| + |b| + 1` is never exhausted. -/
def matchingBlocksAux (a b : List Char) : Nat → Nat → Nat → Nat → Nat → List (Nat × Nat × Nat)
  | 0, _, _, _, _ => []
  | fuel + 1, alo, ahi, blo, bhi =>
    let m := findLongestMatch a b alo ahi blo bhi
    if m.2.2 = 0 then []
    else
      (if alo < m.1 ∧ blo < m.2.1 then matchingBlocksAux a b fuel alo m.1 blo m.2.1 else []) ++
      m ::
      (if m.1 + m.2.2 < ahi ∧ m.2.1 + m.2.2 < bhi then
        matchingBlocksAux a b fuel (m.1 + m.2.2) ahi (m.2.1 + m.2.2) bhi else [])

/-- The total matched size `M` of `get_matching_blocks`. -/
def matchTotal (a b : List Char) : ℕ :=
  ((matchingBlocksAux a b (a.length + b.length + 1) 0 a.length 0 b.length).map
    (fun t => t.2.2)).sum

/-- `SequenceMatcher(None, a, b).ratio()`: `2*M/T` over the total matched
size `M`, with the `_calculate_ratio` convention `1.0` when `T == 0`. -/
def seqSim (a b : List Char) : ℚ :=
  if a.length + b.length = 0 then 1
  else 2 * (matchTotal a b : ℚ) / ((a.length : ℚ) + (b.length : ℚ))

/-- `token_similarity(a, b)` (lines 63-69 of the source): the mean of the
token overlap and the whole-string sequence similarity of the lowercased
strings. -/
def token_similarity (a b : String) : ℚ :=
  (tokenOverlap a b + seqSim (lowerStr a).data (lowerStr b).data) / 2

/-- Python's `round(x, 2)`.  (CPython rounds the nearest double half-to-even;
the model rounds the exact rational to the nearest hundredth.  No property
below depends on behaviour at exact half-cent ties.) -/
def round2 (q : ℚ) : ℚ := (round (q * 100) : ℤ) / 100

/-- `set.add` on the claimed-index collection, modelled as a duplicate-free
insertion into a list (membership is all the set is ever used for). -/
def addIdx (used : List Nat) (idx : Nat) : List Nat :=
  if idx ∈ used then used else used ++ [idx]

/-- The candidate scan of lines 84-93: fold over the enumerated invoice
items, skipping claimed indices, tracking `(best_match, best_score, best_idx)`
and updating on strict improvement (`score > best_score`, seeded `0.0`). -/
def findBestGo (d : String) (used : List Nat) :
    List (Nat × LineItem) → Option LineItem × ℚ × Option Nat → Option LineItem × ℚ × Option Nat
  | [], st => st
  | p :: ps, st =>
    if p.1 ∈ used then findBestGo d used ps st
    else
      let s := token_similarity d (p.2.description.getD "")
      if st.2.1 < s then findBestGo d used ps (some p.2, s, some p.1)
      else findBestGo d used ps st

/-- The full candidate scan for one purchase-order description. -/
def findBest (inv_items : List LineItem) (used : List Nat) (d : String) :
    Option LineItem × ℚ × Option Nat :=
  findBestGo d used inv_items.enum (none, 0, none)

/-- The body of the per-purchase-order-item loop (lines 78-126): scan for the
best unclaimed candidate, claim it when `best_idx is not None and
best_score >= threshold`, classify, and build the output row. -/
def stepRow (inv_items : List LineItem) (t : ℚ) (used : List Nat) (po_it : LineItem) :
    ComparisonRow × List Nat :=
  let F := findBest inv_items used (po_it.description.getD "")
  let bm := F.1
  let bs := F.2.1
  let used' := match F.2.2 with
    | some idx => if t ≤ bs then addIdx used idx else used
    | none => used
  let po_total := po_it.total.getD ""
  let inv_total := match bm with | some it => it.total.getD "" | none => ""
  let status := if t ≤ bs ∧ po_total = inv_total then "Match"
    else if t ≤ bs then "Partial Match"
    else "Mismatch"
  ({ po_item := po_it.description.getD "",
     po_qty := po_it.qty.getD "",
     po_price := po_it.unit_price.getD "",
     po_total := po_total,
     invoice_item := match bm with | some it => it.description.getD "" | none => "",
     invoice_qty := match bm with | some it => it.qty.getD "" | none => "",
     invoice_price := match bm with | some it => it.unit_price.getD "" | none => "",
     invoice_total := inv_total,
     status := status,
     match_score := round2 bs }, used')

/-- The loop over purchase-order items, threading the claimed-index set and
collecting the rows in order. -/
def poLoop (inv_items : List LineItem) (t : ℚ) :
    List LineItem → List Nat → List ComparisonRow × List Nat
  | [], used => ([], used)
  | po_it :: rest, used =>
    let r := stepRow inv_items t used po_it
    let rec_ := poLoop inv_items t rest r.2
    (r.1 :: rec_.1, rec_.2)

/-- A trailing row for a never-claimed invoice item (lines 129-142). -/
def mkLeftoverRow (it : LineItem) : ComparisonRow :=
  { po_item := "", po_qty := "", po_price := "", po_total := "",
    invoice_item := it.description.getD "",
    invoice_qty := it.qty.getD "",
    invoice_price := it.unit_price.getD "",
    invoice_total := it.total.getD "",
    status := "Mismatch",
    match_score := 0 }

/-- `compare_structures(po_struct, inv_struct, item_match_threshold)`
(lines 70-144; the Python default for the threshold is `0.7`): purchase-order
rows in input order, followed by one row per never-claimed invoice item in
input order. -/
def compare_structures (po_struct inv_struct : Option DocumentStruct) (t : ℚ) :
    List ComparisonRow :=
  let po_items := getItems po_struct
  let inv_items := getItems inv_struct
  let r := poLoop inv_items t po_items []
  r.1 ++ inv_items.enum.filterMap
    (fun p => if p.1 ∈ r.2 then none else some (mkLeftoverRow p.2))

/-- The unclaimed enumerated candidates the scan considers. -/
def availOf (used : List Nat) (ps : List (Nat × LineItem)) : List (Nat × LineItem) :=
  ps.filter (fun p => decide (p.1 ∉ used))

/-- The similarity of one candidate against a purchase-order description. -/
def scOf (d : String) (p : Nat × LineItem) : ℚ :=
  token_similarity d (p.2.description.getD "")

/-- The maximum candidate score, seeded with the scan's initial `0.0`. -/
def maxScore (d : String) (used : List Nat) (ps : List (Nat × LineItem)) : ℚ :=
  ((availOf used ps).map (scOf d)).foldr max 0

instance : Inhabited LineItem := ⟨{}⟩

/-- `Match`/`Partial Match` rows (the rows the spec calls matched). -/
def isMatchLike (r : ComparisonRow) : Bool :=
  r.status == "Match" || r.status == "Partial Match"

/-- `Mismatch` rows. -/
def isMismatch (r : ComparisonRow) : Bool := r.status == "Mismatch"

/-- The `inv_used` set on entry to the `k`-th iteration of the loop over
purchase-order items (lines 76-97): the claimed-index set threaded through
the first `k` iterations from the initial set `used`. -/
def usedBefore (inv_items : List LineItem) (t : ℚ) (po_items : List LineItem)
    (used : List Nat) (k : Nat) : List Nat :=
  (poLoop inv_items t (po_items.take k) used).2

/-- The `best_idx` of row `k`: the index the scan of lines 84-93 selects
for the `k`-th purchase-order item, `none` when no candidate beats the
`0.0` seed. -/
def selIdx (inv_items : List LineItem) (t : ℚ) (po_items : List LineItem)
    (used : List Nat) (k : Nat) : Option Nat :=
  (findBest inv_items (usedBefore inv_items t po_items used k)
    ((po_items.getD k default).description.getD "")).2.2

/-- The index row `k` claims (`inv_used.add(best_idx)`, lines 96-97): the
selected index when `best_idx is not None and best_score >= threshold`,
and `none` otherwise. -/
def claimIdx (inv_items : List LineItem) (t : ℚ) (po_items : List LineItem)
    (used : List Nat) (k : Nat) : Option Nat :=
  match (findBest inv_items (usedBefore inv_items t po_items used k)
      ((po_items.getD k default).description.getD "")).2.2 with
  | some idx =>
      if t ≤ (findBest inv_items (usedBefore inv_items t po_items used k)
          ((po_items.getD k default).description.getD "")).2.1
      then some idx else none
  | none => none

/-- A one-item purchase order: description `"abc"`, no other keys. -/
def poDocA : Option DocumentStruct := some { items := some [{ description := some "abc" }] }

/-- A one-item invoice with the same description `"abc"` and no `total`. -/
def invDocA : Option DocumentStruct := some { items := some [{ description := some "abc" }] }

/-- A one-item invoice with the unrelated description `"xyz"`. -/
def invDocX : Option DocumentStruct := some { items := some [{ description := some "xyz" }] }

/-- A two-item purchase order, both items described `"abc"`. -/
def poDocB : Option DocumentStruct :=
  some { items := some [{ description := some "abc" }, { description := some "abc" }] }

/-- A two-item invoice with descriptions `"abc"` and `"xyz"`. -/
def invDocB : Option DocumentStruct :=
  some { items := some [{ description := some "abc" }, { description := some "xyz" }] }

/-- A purchase order with one item carrying no keys at all. -/
def poDocEmpty : Option DocumentStruct := some { items := some [{}] }

/-- An invoice whose `items` list is empty. -/
def invDocNil : Option DocumentStruct := some { items := some [] }

/-- The candidate column positions actually walked in row `i` of the
dynamic program, for the self-comparison ranges `blo = 0`, `bhi = |s|`. -/
def jsOf (s : List Char) (i : Nat) : List Nat :=
  (b2j s (s.getD i ' ')).filter (fun j => decide (0 ≤ j) && decide (j < s.length))

/-- `k = j2len.get(j-1, 0) + 1` of the dynamic program. -/
def kOf (j2len : Nat → Nat) (j : Nat) : Nat := (if j = 0 then 0 else j2len (j - 1)) + 1

/-- The length of the run of consecutive un-purged characters of `s` ending
at position `i`: the junk-free diagonal run length of the self-comparison. -/
def runl (s : List Char) : Nat → Nat
  | 0 => if (b2j s (s.getD 0 ' ')).isEmpty then 0 else 1
  | i + 1 => if (b2j s (s.getD (i + 1) ' ')).isEmpty then 0 else runl s i + 1

/-- The invariant of the self-comparison dynamic program on entry to row
`i`: the best block found so far is diagonal, fits in the string, dominates
every completed diagonal run, and `j2len` is bounded by the run lengths,
with the previous row's diagonal entry exact. -/
def FlmInv (s : List Char) (i : Nat) (j2len : Nat → Nat) (bi bj bs : Nat) : Prop :=
  bi = bj ∧ bi + bs ≤ s.length ∧ (bs = 0 → bi = 0) ∧
  (∀ j, j < i → runl s j ≤ bs) ∧
  (∀ j, j2len j ≤ runl s j) ∧
  (∀ j, j2len j ≤ if i = 0 then 0 else runl s (i - 1)) ∧
  (0 < i → j2len (i - 1) = runl s (i - 1))

/-! ## Theorems -/
lemma token_similarity_val (a b : String) (i u m la lb : ℕ)
    (hi : tokInter a b = i) (hu : tokUnion a b = u)
    (hm : matchTotal (lowerStr a).data (lowerStr b).data = m)
    (hla : (lowerStr a).data.length = la) (hlb : (lowerStr b).data.length = lb) :
    token_similarity a b =
      ((i : ℚ) / ((max u 1 : ℕ) : ℚ) +
        if la + lb = 0 then 1 else 2 * (m : ℚ) / ((la : ℚ) + (lb : ℚ))) / 2 := by
  subst hi hu hm hla hlb
  rfl

lemma ts_tide_diet : token_similarity "tide" "diet" = 1/8 := by
  rw [token_similarity_val "tide" "diet" 0 2 1 4 4 (by decide) (by decide) (by decide)
    (by decide) (by decide)]
  norm_num

lemma ts_diet_tide : token_similarity "diet" "tide" = 1/4 := by
  rw [token_similarity_val "diet" "tide" 0 2 2 4 4 (by decide) (by decide) (by decide)
    (by decide) (by decide)]
  norm_num

/-- C2 counterexample. -/
theorem C2_cx : token_similarity "tide" "diet" ≠ token_similarity "diet" "tide" := by
  rw [ts_tide_diet, ts_diet_tide]
  norm_num

/-- C2 amended. -/
theorem C2_amended (a b : String) : tokenOverlap a b = tokenOverlap b a := by
  unfold tokenOverlap tokInter tokUnion
  rw [Finset.inter_comm, Finset.union_comm]

/-- C8. -/
theorem C8 : tokenOverlap "" "" = 0 ∧ seqSim (lowerStr "").data (lowerStr "").data = 1 ∧
    token_similarity "" "" = 1/2 := by
  refine ⟨?_, ?_, ?_⟩
  · unfold tokenOverlap
    rw [show tokInter "" "" = 0 from by decide]
    norm_num
  · rfl
  · rw [token_similarity_val "" "" 0 0 0 0 0 (by decide) (by decide) (by decide)
      (by decide) (by decide)]
    norm_num

/-- C9. -/
theorem C9 (po inv : Option DocumentStruct) (t : ℚ) :
    getItems none = [] ∧ getItems (some { items := none }) = [] ∧
    compare_structures none inv t = compare_structures (some { items := some [] }) inv t ∧
    compare_structures none inv t = compare_structures (some { items := none }) inv t ∧
    compare_structures po none t = compare_structures po (some { items := some [] }) t ∧
    compare_structures po none t = compare_structures po (some { items := none }) t :=
  ⟨rfl, rfl, rfl, rfl, rfl, rfl⟩

lemma foldr_max_nonneg (l : List ℚ) : 0 ≤ l.foldr max 0 := by
  induction l with
  | nil => exact le_refl 0
  | cons a l ih => exact le_trans ih (le_max_right a _)

lemma maxScore_nonneg (d : String) (used : List Nat) (ps : List (Nat × LineItem)) :
    0 ≤ maxScore d used ps :=
  foldr_max_nonneg _

lemma availOf_cons_mem {used : List Nat} {p : Nat × LineItem} (ps : List (Nat × LineItem))
    (h : p.1 ∈ used) : availOf used (p :: ps) = availOf used ps := by
  simp [availOf, h]

lemma availOf_cons_not_mem (used : List Nat) {p : Nat × LineItem} (ps : List (Nat × LineItem))
    (h : p.1 ∉ used) : availOf used (p :: ps) = p :: availOf used ps := by
  simp [availOf, h]

/-- The scan computes the first candidate attaining the maximum score,
provided some candidate strictly beats the running best. -/
lemma findBestGo_spec (d : String) (used : List Nat) :
    ∀ (ps : List (Nat × LineItem)) (st : Option LineItem × ℚ × Option Nat), 0 ≤ st.2.1 →
      (maxScore d used ps ≤ st.2.1 → findBestGo d used ps st = st) ∧
      (st.2.1 < maxScore d used ps →
        ∃ p, (availOf used ps).find? (fun q => decide (scOf d q = maxScore d used ps)) = some p ∧
          findBestGo d used ps st = (some p.2, maxScore d used ps, some p.1)) := by
  intro ps
  induction ps with
  | nil =>
    intro st h0
    refine ⟨fun _ => rfl, fun h => absurd h ?_⟩
    simp only [maxScore, availOf, List.filter_nil, List.map_nil, List.foldr_nil]
    exact not_lt.mpr h0
  | cons p rest ih =>
    intro st h0
    by_cases hu : p.1 ∈ used
    · have hgo : findBestGo d used (p :: rest) st = findBestGo d used rest st := by
        simp [findBestGo, hu]
      have hms : maxScore d used (p :: rest) = maxScore d used rest := by
        simp [maxScore, availOf_cons_mem rest hu]
      rw [hgo, hms, availOf_cons_mem rest hu]
      exact ih st h0
    · have havail := availOf_cons_not_mem used rest hu
      have hms : maxScore d used (p :: rest) = max (scOf d p) (maxScore d used rest) := by
        simp [maxScore, havail]
      have hgo : findBestGo d used (p :: rest) st =
          if st.2.1 < scOf d p then findBestGo d used rest (some p.2, scOf d p, some p.1)
          else findBestGo d used rest st := by
        simp only [findBestGo]
        rw [if_neg hu]
        rfl
      by_cases hlt : st.2.1 < scOf d p
      · have hgo2 : findBestGo d used (p :: rest) st =
            findBestGo d used rest (some p.2, scOf d p, some p.1) := by
          rw [hgo, if_pos hlt]
        have h0' : (0:ℚ) ≤ (some p.2, scOf d p, some p.1).2.1 :=
          le_trans h0 (le_of_lt hlt)
        rcases le_or_lt (maxScore d used rest) (scOf d p) with hle | hgt
        · have hM : maxScore d used (p :: rest) = scOf d p := by
            rw [hms]; exact max_eq_left hle
          constructor
          · intro h; exact absurd (lt_of_lt_of_le hlt (hM ▸ h)) (lt_irrefl _)
          · intro _
            refine ⟨p, ?_, ?_⟩
            · rw [havail, hM]
              exact List.find?_cons_of_pos _ (by simp)
            · rw [hgo2, hM, (ih _ h0').1 hle]
        · have hM : maxScore d used (p :: rest) = maxScore d used rest := by
            rw [hms]; exact max_eq_right (le_of_lt hgt)
          constructor
          · intro h
            exact absurd (lt_of_lt_of_le (lt_trans hlt hgt) (hM ▸ h)) (lt_irrefl _)
          · intro _
            obtain ⟨q, hq1, hq2⟩ := (ih _ h0').2 hgt
            refine ⟨q, ?_, ?_⟩
            · rw [havail, hM]
              refine (List.find?_cons_of_neg _ ?_).trans hq1
              simp only [decide_eq_true_eq]
              exact ne_of_lt hgt
            · rw [hgo2, hM]; exact hq2
      · have hge : scOf d p ≤ st.2.1 := not_lt.mp hlt
        have hgo2 : findBestGo d used (p :: rest) st = findBestGo d used rest st := by
          rw [hgo, if_neg hlt]
        constructor
        · intro h
          rw [hgo2]
          exact (ih st h0).1 (le_trans (le_trans (le_max_right (scOf d p) _) (hms ▸ le_refl _)) h)
        · intro h
          have hMr : st.2.1 < maxScore d used rest := by
            rcases max_cases (scOf d p) (maxScore d used rest) with ⟨he, _⟩ | ⟨he, _⟩
            · rw [hms, he] at h; exact absurd (lt_of_lt_of_le h hge) (lt_irrefl _)
            · rw [hms, he] at h; exact h
          have hM : maxScore d used (p :: rest) = maxScore d used rest := by
            rw [hms]; exact max_eq_right (le_trans hge (le_of_lt hMr))
          obtain ⟨q, hq1, hq2⟩ := (ih st h0).2 hMr
          refine ⟨q, ?_, ?_⟩
          · rw [havail, hM]
            refine (List.find?_cons_of_neg _ ?_).trans hq1
            simp only [decide_eq_true_eq]
            exact ne_of_lt (lt_of_le_of_lt hge hMr)
          · rw [hgo2, hM]; exact hq2

/-- Case split for the full scan: either nothing beats the `0.0` seed (and
the scan reports no candidate at all), or the result is the first candidate
attaining the positive maximum. -/
lemma findBest_cases (inv : List LineItem) (used : List Nat) (d : String) :
    (maxScore d used inv.enum = 0 ∧ findBest inv used d = (none, 0, none)) ∨
    (0 < maxScore d used inv.enum ∧
      ∃ p, (availOf used inv.enum).find?
          (fun q => decide (scOf d q = maxScore d used inv.enum)) = some p ∧
        findBest inv used d = (some p.2, maxScore d used inv.enum, some p.1)) := by
  rcases eq_or_lt_of_le (maxScore_nonneg d used inv.enum) with h | h
  · left
    exact ⟨h.symm, (findBestGo_spec d used inv.enum (none, 0, none) (le_refl 0)).1 h.ge⟩
  · right
    exact ⟨h, (findBestGo_spec d used inv.enum (none, 0, none) (le_refl 0)).2 h⟩

/-- The scan's best score is the maximum candidate score. -/
lemma findBest_score (inv : List LineItem) (used : List Nat) (d : String) :
    (findBest inv used d).2.1 = maxScore d used inv.enum := by
  rcases findBest_cases inv used d with ⟨h0, he⟩ | ⟨_, p, _, he⟩ <;> rw [he]
  exact h0.symm

/-- When the scan selects no index it selects nothing at all. -/
lemma findBest_none {inv : List LineItem} {used : List Nat} {d : String}
    (h : (findBest inv used d).2.2 = none) :
    findBest inv used d = (none, 0, none) ∧ maxScore d used inv.enum = 0 := by
  rcases findBest_cases inv used d with ⟨h0, he⟩ | ⟨_, p, _, he⟩
  · exact ⟨he, h0⟩
  · rw [he] at h
    simp at h

/-- A selected index is an unclaimed in-range index whose item is selected
with it and whose score is the (positive) best score. -/
lemma findBest_some {inv : List LineItem} {used : List Nat} {d : String} {x : Nat}
    (h : (findBest inv used d).2.2 = some x) :
    x ∉ used ∧ x < inv.length ∧ 0 < (findBest inv used d).2.1 ∧
    ∃ it, inv.get? x = some it ∧ (findBest inv used d).1 = some it ∧
      scOf d (x, it) = (findBest inv used d).2.1 := by
  rcases findBest_cases inv used d with ⟨h0, he⟩ | ⟨hpos, p, hfind, he⟩
  · rw [he] at h
    simp at h
  · rw [he] at h
    have hx : p.1 = x := by simpa using h
    have hmem : p ∈ availOf used inv.enum := List.mem_of_find?_eq_some hfind
    have hmem2 : p ∈ inv.enum ∧ p.1 ∉ used := by
      have := List.mem_filter.mp hmem
      refine ⟨this.1, ?_⟩
      simpa using this.2
    have hget : inv.get? p.1 = some p.2 := List.mem_enum_iff_get?.mp hmem2.1
    have hsc : scOf d p = maxScore d used inv.enum := by
      have := List.find?_some hfind
      simpa using this
    subst hx
    refine ⟨hmem2.2, ?_, ?_, p.2, hget, ?_, ?_⟩
    · exact List.get?_eq_some.mp hget |>.choose
    · rw [he]
      exact hpos
    · rw [he]
    · rw [he]
      exact hsc

/-- Parallel simulation of two scans over the same candidates, the first
with a larger claimed set: either they agree, or the second has found a
candidate the first has already claimed, with at least as good a score. -/
lemma findBestGo_rel (d : String) (usedA usedB : List Nat) (hsub : usedB ⊆ usedA) :
    ∀ (ps : List (Nat × LineItem)) (stA stB : Option LineItem × ℚ × Option Nat),
      (stA = stB ∨ (stA.2.1 ≤ stB.2.1 ∧ ∃ y, stB.2.2 = some y ∧ y ∈ usedA)) →
      (findBestGo d usedA ps stA = findBestGo d usedB ps stB ∨
        ((findBestGo d usedA ps stA).2.1 ≤ (findBestGo d usedB ps stB).2.1 ∧
          ∃ y, (findBestGo d usedB ps stB).2.2 = some y ∧ y ∈ usedA)) := by
  intro ps
  induction ps with
  | nil =>
    intro stA stB h
    rcases h with rfl | hd
    · exact Or.inl rfl
    · exact Or.inr hd
  | cons p rest ih =>
    intro stA stB h
    have hgoA : findBestGo d usedA (p :: rest) stA =
        if p.1 ∈ usedA then findBestGo d usedA rest stA
        else if stA.2.1 < scOf d p then findBestGo d usedA rest (some p.2, scOf d p, some p.1)
        else findBestGo d usedA rest stA := by
      simp only [findBestGo]
      by_cases hA : p.1 ∈ usedA
      · rw [if_pos hA, if_pos hA]
      · rw [if_neg hA, if_neg hA]
        rfl
    have hgoB : findBestGo d usedB (p :: rest) stB =
        if p.1 ∈ usedB then findBestGo d usedB rest stB
        else if stB.2.1 < scOf d p then findBestGo d usedB rest (some p.2, scOf d p, some p.1)
        else findBestGo d usedB rest stB := by
      simp only [findBestGo]
      by_cases hB : p.1 ∈ usedB
      · rw [if_pos hB, if_pos hB]
      · rw [if_neg hB, if_neg hB]
        rfl
    by_cases hB : p.1 ∈ usedB
    · have hA : p.1 ∈ usedA := hsub hB
      rw [hgoA, if_pos hA, hgoB, if_pos hB]
      exact ih stA stB h
    · by_cases hA : p.1 ∈ usedA
      · rw [hgoA, if_pos hA, hgoB, if_neg hB]
        rcases h with rfl | hd
        · by_cases hc : stA.2.1 < scOf d p
          · rw [if_pos hc]
            exact ih stA _ (Or.inr ⟨le_of_lt hc, p.1, rfl, hA⟩)
          · rw [if_neg hc]
            exact ih stA stA (Or.inl rfl)
        · by_cases hc : stB.2.1 < scOf d p
          · rw [if_pos hc]
            exact ih stA _ (Or.inr ⟨le_of_lt (lt_of_le_of_lt hd.1 hc), p.1, rfl, hA⟩)
          · rw [if_neg hc]
            exact ih stA stB (Or.inr hd)
      · rw [hgoA, if_neg hA, hgoB, if_neg hB]
        rcases h with rfl | hd
        · by_cases hc : stA.2.1 < scOf d p
          · rw [if_pos hc, if_pos hc]
            exact ih _ _ (Or.inl rfl)
          · rw [if_neg hc, if_neg hc]
            exact ih stA stA (Or.inl rfl)
        · by_cases hcB : stB.2.1 < scOf d p
          · have hcA : stA.2.1 < scOf d p := lt_of_le_of_lt hd.1 hcB
            rw [if_pos hcA, if_pos hcB]
            exact ih _ _ (Or.inl rfl)
          · rw [if_neg hcB]
            by_cases hcA : stA.2.1 < scOf d p
            · rw [if_pos hcA]
              exact ih _ stB (Or.inr ⟨not_lt.mp hcB, hd.2⟩)
            · rw [if_neg hcA]
              exact ih stA stB (Or.inr hd)

/-- Two scans from claimed sets `usedB ⊆ usedA` either agree or diverge with
the smaller-set scan selecting an index claimed in the larger set. -/
lemma findBest_rel (usedA usedB : List Nat) (inv : List LineItem) (d : String)
    (hsub : usedB ⊆ usedA) :
    findBest inv usedA d = findBest inv usedB d ∨
    ((findBest inv usedA d).2.1 ≤ (findBest inv usedB d).2.1 ∧
      ∃ y, (findBest inv usedB d).2.2 = some y ∧ y ∈ usedA) :=
  findBestGo_rel d usedA usedB hsub inv.enum _ _ (Or.inl rfl)

/-- Claiming more invoice items can only lower the best score. -/
lemma findBest_score_mono {usedA usedB : List Nat} (inv : List LineItem) (d : String)
    (hsub : usedB ⊆ usedA) :
    (findBest inv usedA d).2.1 ≤ (findBest inv usedB d).2.1 := by
  rcases findBest_rel usedA usedB inv d hsub with h | h
  · rw [h]
  · exact h.1

/-- If the smaller-set scan selects an index the larger set has not claimed
either, both scans agree entirely. -/
lemma findBest_eq_of_unclaimed {usedA usedB : List Nat} {inv : List LineItem} {d : String}
    {x : Nat} (hsub : usedB ⊆ usedA) (hx : (findBest inv usedB d).2.2 = some x)
    (hxA : x ∉ usedA) :
    findBest inv usedA d = findBest inv usedB d := by
  rcases findBest_rel usedA usedB inv d hsub with h | h
  · exact h
  · obtain ⟨y, hy, hyA⟩ := h.2
    rw [hx] at hy
    cases hy
    exact absurd hyA hxA

lemma stepRow_used (inv : List LineItem) (t : ℚ) (used : List Nat) (po_it : LineItem) :
    (stepRow inv t used po_it).2 =
      match (findBest inv used (po_it.description.getD "")).2.2 with
      | some idx =>
          if t ≤ (findBest inv used (po_it.description.getD "")).2.1 then addIdx used idx
          else used
      | none => used := rfl

lemma stepRow_matchlike (inv : List LineItem) (t : ℚ) (used : List Nat) (po_it : LineItem) :
    isMatchLike (stepRow inv t used po_it).1 =
      decide (t ≤ (findBest inv used (po_it.description.getD "")).2.1) := by
  simp only [stepRow, isMatchLike]
  by_cases ht : t ≤ (findBest inv used (po_it.description.getD "")).2.1
  · by_cases heq : po_it.total.getD "" =
        (match (findBest inv used (po_it.description.getD "")).1 with
          | some it => it.total.getD "" | none => "")
    · simp [ht, heq]
    · simp [ht, heq]
  · simp [ht]

lemma stepRow_mismatch (inv : List LineItem) (t : ℚ) (used : List Nat) (po_it : LineItem) :
    isMismatch (stepRow inv t used po_it).1 =
      decide ((findBest inv used (po_it.description.getD "")).2.1 < t) := by
  simp only [stepRow, isMismatch]
  by_cases ht : t ≤ (findBest inv used (po_it.description.getD "")).2.1
  · by_cases heq : po_it.total.getD "" =
        (match (findBest inv used (po_it.description.getD "")).1 with
          | some it => it.total.getD "" | none => "")
    · simp [ht, heq, not_lt.mpr ht]
    · simp [ht, heq, not_lt.mpr ht]
  · simp [ht, not_le.mp ht]

lemma stepRow_used_invariant (inv : List LineItem) (t : ℚ) (used : List Nat) (po_it : LineItem)
    (hN : used.Nodup) (hB : ∀ x ∈ used, x < inv.length) :
    (stepRow inv t used po_it).2.Nodup ∧ (∀ x ∈ (stepRow inv t used po_it).2, x < inv.length) ∧
      used ⊆ (stepRow inv t used po_it).2 := by
  rw [stepRow_used]
  rcases hF : (findBest inv used (po_it.description.getD "")).2.2 with _ | x
  · exact ⟨hN, hB, List.Subset.refl used⟩
  · obtain ⟨hxu, hxl, -, -⟩ := findBest_some hF
    by_cases ht : t ≤ (findBest inv used (po_it.description.getD "")).2.1
    · have haddx : addIdx used x = used ++ [x] := if_neg hxu
      simp only [ht, if_true, haddx]
      refine ⟨?_, ?_, List.subset_append_left _ _⟩
      · simp [List.nodup_append, hN, hxu]
      · intro y hy
        rcases List.mem_append.mp hy with hy | hy
        · exact hB y hy
        · simp at hy
          subst hy
          exact hxl
    · simp only [ht, if_false]
      exact ⟨hN, hB, List.Subset.refl used⟩

lemma poLoop_cons (inv : List LineItem) (t : ℚ) (p : LineItem) (rest : List LineItem)
    (used : List Nat) :
    poLoop inv t (p :: rest) used =
      ((stepRow inv t used p).1 :: (poLoop inv t rest (stepRow inv t used p).2).1,
        (poLoop inv t rest (stepRow inv t used p).2).2) := rfl

lemma poLoop_used_invariant (inv : List LineItem) (t : ℚ) :
    ∀ (po : List LineItem) (used : List Nat), used.Nodup → (∀ x ∈ used, x < inv.length) →
      (poLoop inv t po used).2.Nodup ∧ (∀ x ∈ (poLoop inv t po used).2, x < inv.length) ∧
        used ⊆ (poLoop inv t po used).2 := by
  intro po
  induction po with
  | nil => exact fun used hN hB => ⟨hN, hB, List.Subset.refl used⟩
  | cons p rest ih =>
    intro used hN hB
    obtain ⟨hN', hB', hsub'⟩ := stepRow_used_invariant inv t used p hN hB
    obtain ⟨h1, h2, h3⟩ := ih (stepRow inv t used p).2 hN' hB'
    rw [poLoop_cons]
    exact ⟨h1, h2, List.Subset.trans hsub' h3⟩

lemma poLoop_rows_length (inv : List LineItem) (t : ℚ) :
    ∀ (po : List LineItem) (used : List Nat), (poLoop inv t po used).1.length = po.length := by
  intro po
  induction po with
  | nil => intro used; rfl
  | cons p rest ih =>
    intro used
    rw [poLoop_cons]
    simp [ih]

/-- The row for the `k`-th purchase-order item, and the claimed set after
it, are the step applied to the claimed set reached by the first `k` items. -/
lemma poLoop_row_get (inv : List LineItem) (t : ℚ) :
    ∀ (po : List LineItem) (used : List Nat) (k : Nat), k < po.length →
      (poLoop inv t po used).1.getD k defaultRow =
        (stepRow inv t (poLoop inv t (po.take k) used).2 (po.getD k default)).1 ∧
      (poLoop inv t (po.take (k + 1)) used).2 =
        (stepRow inv t (poLoop inv t (po.take k) used).2 (po.getD k default)).2 := by
  intro po
  induction po with
  | nil => intro used k hk; exact absurd hk (by simp)
  | cons p rest ih =>
    intro used k hk
    cases k with
    | zero =>
      constructor
      · rfl
      · rfl
    | succ k =>
      have hk' : k < rest.length := by simpa using hk
      obtain ⟨h1, h2⟩ := ih (stepRow inv t used p).2 k hk'
      constructor
      · rw [poLoop_cons]
        simpa using h1
      · have htake : (p :: rest).take (k + 2) = p :: rest.take (k + 1) := rfl
        have htake' : (p :: rest).take (k + 1) = p :: rest.take k := rfl
        rw [htake, htake', poLoop_cons, poLoop_cons]
        simpa using h2

lemma filterMap_if {α β : Type} (l : List α) (c : α → Prop) [DecidablePred c] (f : α → β) :
    l.filterMap (fun a => if c a then none else some (f a)) =
      (l.filter (fun a => decide (¬ c a))).map f := by
  induction l with
  | nil => rfl
  | cons a l ih =>
    by_cases h : c a
    · simp [List.filterMap_cons, List.filter_cons, h, ih]
    · simp [List.filterMap_cons, List.filter_cons, h, ih]

/-- `compare_structures` is the purchase-order rows followed by a leftover
row for each unclaimed invoice item, in order. -/
lemma compare_structures_decomp (po_struct inv_struct : Option DocumentStruct) (t : ℚ) :
    compare_structures po_struct inv_struct t =
      (poLoop (getItems inv_struct) t (getItems po_struct) []).1 ++
        ((getItems inv_struct).enum.filter
          (fun p => decide (p.1 ∉ (poLoop (getItems inv_struct) t (getItems po_struct) []).2))).map
          (fun p => mkLeftoverRow p.2) := by
  simp only [compare_structures]
  rw [filterMap_if]

lemma filter_length_split {α : Type} (l : List α) (q : α → Bool) :
    (l.filter q).length + (l.filter (fun a => !(q a))).length = l.length := by
  induction l with
  | nil => rfl
  | cons a l ih =>
    by_cases h : q a
    · simp [List.filter_cons, h, ← ih]
      omega
    · simp [List.filter_cons, h, ← ih]
      omega

lemma enumFrom_filter_fst_length {α : Type} (q : Nat → Bool) :
    ∀ (l : List α) (n : Nat),
      ((List.enumFrom n l).filter (fun p => q p.1)).length =
        ((List.range' n l.length).filter q).length := by
  intro l
  induction l with
  | nil => intro n; rfl
  | cons a l ih =>
    intro n
    by_cases h : q n
    · simp [List.enumFrom, List.range', List.filter_cons, h, ih]
    · simp [List.enumFrom, List.range', List.filter_cons, h, ih]

lemma range_filter_mem_length (used : List Nat) (n : Nat) (hN : used.Nodup)
    (hB : ∀ x ∈ used, x < n) :
    ((List.range n).filter (fun x => decide (x ∈ used))).length = used.length := by
  have hperm : List.Perm ((List.range n).filter (fun x => decide (x ∈ used))) used := by
    apply List.perm_of_nodup_nodup_toFinset_eq
    · exact (List.nodup_range n).filter _
    · exact hN
    · ext x
      simp only [List.mem_toFinset, List.mem_filter, List.mem_range, decide_eq_true_eq]
      exact ⟨fun h => h.2, fun h => ⟨hB x h, h⟩⟩
  exact hperm.length_eq

lemma unclaimed_count (inv : List LineItem) (used : List Nat) (hN : used.Nodup)
    (hB : ∀ x ∈ used, x < inv.length) :
    ((inv.enum.filter (fun p => decide (p.1 ∉ used)))).length = inv.length - used.length := by
  have h1 : ((inv.enum.filter (fun p => decide (p.1 ∉ used)))).length =
      ((List.range inv.length).filter (fun x => decide (x ∉ used))).length := by
    have := enumFrom_filter_fst_length (fun x => decide (x ∉ used)) inv 0
    simpa [List.enum, List.range_eq_range'] using this
  have h2 := filter_length_split (List.range inv.length) (fun x => decide (x ∈ used))
  have h3 := range_filter_mem_length used inv.length hN hB
  have h4 : ((List.range inv.length).filter (fun x => !(decide (x ∈ used)))).length =
      ((List.range inv.length).filter (fun x => decide (x ∉ used))).length := by
    simp
  rw [h1, ← h4]
  simp only [List.length_range] at h2
  omega

/-- C6: row count and ordering.  The output is the purchase-order rows (one
per purchase-order item, in input order) followed by one leftover row per
never-claimed invoice item in input order; the leftover rows have blank
purchase-order fields, the invoice item's fields, status `Mismatch` and
score `0.0`; the total length is `|po items| + |unclaimed invoice items|`. -/
theorem C6_row_count_order (po inv : Option DocumentStruct) (t : ℚ) :
    compare_structures po inv t =
      (poLoop (getItems inv) t (getItems po) []).1 ++
        ((getItems inv).enum.filter
          (fun p => decide (p.1 ∉ (poLoop (getItems inv) t (getItems po) []).2))).map
          (fun p => mkLeftoverRow p.2) ∧
    (poLoop (getItems inv) t (getItems po) []).1.length = (getItems po).length ∧
    ((getItems inv).enum.filter
        (fun p => decide (p.1 ∉ (poLoop (getItems inv) t (getItems po) []).2))).length =
      (getItems inv).length - (poLoop (getItems inv) t (getItems po) []).2.length ∧
    (compare_structures po inv t).length =
      (getItems po).length +
        ((getItems inv).length - (poLoop (getItems inv) t (getItems po) []).2.length) ∧
    ((getItems inv).enum.filter
        (fun p => decide (p.1 ∉ (poLoop (getItems inv) t (getItems po) []).2))).all
      (fun p => (mkLeftoverRow p.2).po_item == "" && (mkLeftoverRow p.2).po_qty == "" &&
        (mkLeftoverRow p.2).po_price == "" && (mkLeftoverRow p.2).po_total == "" &&
        (mkLeftoverRow p.2).invoice_item == p.2.description.getD "" &&
        (mkLeftoverRow p.2).invoice_qty == p.2.qty.getD "" &&
        (mkLeftoverRow p.2).invoice_price == p.2.unit_price.getD "" &&
        (mkLeftoverRow p.2).invoice_total == p.2.total.getD "" &&
        (mkLeftoverRow p.2).status == "Mismatch" &&
        decide ((mkLeftoverRow p.2).match_score = 0)) = true := by
  obtain ⟨hN, hB, -⟩ :=
    poLoop_used_invariant (getItems inv) t (getItems po) [] List.nodup_nil (by simp)
  have hcount := unclaimed_count (getItems inv) (poLoop (getItems inv) t (getItems po) []).2 hN
    (fun x hx => hB x hx)
  refine ⟨compare_structures_decomp po inv t, poLoop_rows_length _ _ _ _, hcount, ?_, ?_⟩
  · rw [compare_structures_decomp po inv t]
    simp only [List.length_append, List.length_map]
    rw [poLoop_rows_length, hcount]
  · rw [List.all_eq_true]
    intro p _
    simp [mkLeftoverRow]

lemma compare_getD_po_row (po inv : Option DocumentStruct) (t : ℚ) (k : Nat)
    (hk : k < (getItems po).length) :
    (compare_structures po inv t).getD k defaultRow =
      (stepRow (getItems inv) t (poLoop (getItems inv) t ((getItems po).take k) []).2
        ((getItems po).getD k default)).1 := by
  rw [compare_structures_decomp po inv t]
  rw [List.getD_append]
  · exact (poLoop_row_get (getItems inv) t (getItems po) [] k hk).1
  · rw [poLoop_rows_length]
    exact hk

/-- C1 (amended): a purchase-order row's status is `Match` when the best
score reaches the threshold and the stringified totals agree (an absent
total stringifies to the empty string, so two absent totals agree),
`Partial Match` when the best score reaches the threshold but the
stringified totals differ, and `Mismatch` when the best score is below the
threshold. -/
theorem C1_amended (po inv : Option DocumentStruct) (t : ℚ) (k : Nat)
    (hk : k < (getItems po).length) :
    let I := getItems inv
    let used := (poLoop I t ((getItems po).take k) []).2
    let po_it := (getItems po).getD k default
    let F := findBest I used (po_it.description.getD "")
    let itot : String := match F.1 with | some it => it.total.getD "" | none => ""
    let st := ((compare_structures po inv t).getD k defaultRow).status
    (t ≤ F.2.1 → po_it.total.getD "" = itot → st = "Match") ∧
    (t ≤ F.2.1 → po_it.total.getD "" ≠ itot → st = "Partial Match") ∧
    (F.2.1 < t → st = "Mismatch") := by
  intro I used po_it F itot st
  have hrow : st = (stepRow I t used po_it).1.status :=
    congrArg ComparisonRow.status (compare_getD_po_row po inv t k hk)
  have hstat : (stepRow I t used po_it).1.status =
      if t ≤ F.2.1 ∧ po_it.total.getD "" = itot then "Match"
      else if t ≤ F.2.1 then "Partial Match" else "Mismatch" := rfl
  refine ⟨?_, ?_, ?_⟩
  · intro h1 h2
    rw [hrow, hstat, if_pos ⟨h1, h2⟩]
  · intro h1 h2
    rw [hrow, hstat, if_neg (fun hc => h2 hc.2), if_pos h1]
  · intro h1
    rw [hrow, hstat, if_neg (fun hc => absurd h1 (not_lt.mpr hc.1)),
      if_neg (not_le.mpr h1)]

/-- C10: with threshold `0.0` (or any non-positive threshold) and an empty
invoice item list, a purchase-order item whose `total` key is absent gets a
`Match` row with blank invoice fields. -/
theorem C10_match_on_empty (po : Option DocumentStruct) (t : ℚ) (ht : t ≤ 0) (k : Nat)
    (hk : k < (getItems po).length) (htot : ((getItems po).getD k default).total = none) :
    ((compare_structures po (some { items := some [] }) t).getD k defaultRow).status = "Match" ∧
    ((compare_structures po (some { items := some [] }) t).getD k defaultRow).invoice_item = "" ∧
    ((compare_structures po (some { items := some [] }) t).getD k defaultRow).invoice_total = "" := by
  have hrow := compare_getD_po_row po (some { items := some [] }) t k hk
  have hproj : getItems (some { items := some ([] : List LineItem) }) = [] := rfl
  have hF : findBest ([] : List LineItem)
      (poLoop ([] : List LineItem) t ((getItems po).take k) []).2
      (((getItems po).getD k default).description.getD "") = (none, 0, none) := rfl
  rw [hproj] at hrow
  rw [hrow]
  have hstat : (stepRow ([] : List LineItem) t
      (poLoop ([] : List LineItem) t ((getItems po).take k) []).2
      ((getItems po).getD k default)).1.status =
      if t ≤ (0:ℚ) ∧ ((getItems po).getD k default).total.getD "" = "" then "Match"
      else if t ≤ (0:ℚ) then "Partial Match" else "Mismatch" := by
    simp only [stepRow, hF]
  rw [hstat, if_pos ⟨ht, by rw [htot]; rfl⟩]
  refine ⟨rfl, ?_, ?_⟩
  · simp only [stepRow, hF]
  · simp only [stepRow, hF]

lemma stepRow_claim (inv : List LineItem) (t : ℚ) (used : List Nat) (po_it : LineItem) :
    (∀ x, (findBest inv used (po_it.description.getD "")).2.2 = some x →
      x ∉ used ∧
      (t ≤ maxScore (po_it.description.getD "") used inv.enum →
        (stepRow inv t used po_it).2 = used ++ [x]) ∧
      (maxScore (po_it.description.getD "") used inv.enum < t →
        (stepRow inv t used po_it).2 = used)) ∧
    ((findBest inv used (po_it.description.getD "")).2.2 = none →
      (stepRow inv t used po_it).2 = used) := by
  constructor
  · intro x hx
    obtain ⟨hxu, -, -, -⟩ := findBest_some hx
    have hsc := findBest_score inv used (po_it.description.getD "")
    refine ⟨hxu, ?_, ?_⟩
    · intro htM
      rw [stepRow_used]
      simp only [hx]
      rw [if_pos (by rw [hsc]; exact htM), addIdx, if_neg hxu]
    · intro htM
      rw [stepRow_used]
      simp only [hx]
      rw [if_neg (by rw [hsc]; exact not_le.mpr htM)]
  · intro hx
    rw [stepRow_used]
    simp only [hx]

lemma findBest_of_max_zero {inv : List LineItem} {used : List Nat} {d : String}
    (hM : maxScore d used inv.enum = 0) : findBest inv used d = (none, 0, none) := by
  rcases findBest_cases inv used d with ⟨-, he⟩ | ⟨hpos, -⟩
  · exact he
  · rw [hM] at hpos
    exact absurd hpos (lt_irrefl 0)

lemma findBest_of_max_pos {inv : List LineItem} {used : List Nat} {d : String}
    (hM : 0 < maxScore d used inv.enum) :
    ∃ p, (availOf used inv.enum).find?
        (fun q => decide (scOf d q = maxScore d used inv.enum)) = some p ∧
      findBest inv used d = (some p.2, maxScore d used inv.enum, some p.1) := by
  rcases findBest_cases inv used d with ⟨h0, -⟩ | ⟨-, p, hfind, he⟩
  · rw [h0] at hM
    exact absurd hM (lt_irrefl 0)
  · exact ⟨p, hfind, he⟩

/-- C4 (amended): for each purchase-order item, the scan selects the first
unclaimed candidate attaining the maximum score provided that maximum is
positive; when every unclaimed candidate scores `0.0` (or none exists) no
candidate is selected and the invoice fields stay blank; the selected
index is claimed exactly when the best score reaches the threshold; and a
selected sub-threshold candidate is still reported in the row's invoice
fields while remaining unclaimed. -/
theorem C4_amended (po inv : Option DocumentStruct) (t : ℚ) (k : Nat)
    (hk : k < (getItems po).length) :
    let I := getItems inv
    let used := (poLoop I t ((getItems po).take k) []).2
    let d := ((getItems po).getD k default).description.getD ""
    let F := findBest I used d
    let M := maxScore d used I.enum
    (F.2.1 = M) ∧
    (M = 0 → F = (none, 0, none)) ∧
    (0 < M → ∃ p, (availOf used I.enum).find? (fun q => decide (scOf d q = M)) = some p ∧
        F = (some p.2, M, some p.1)) ∧
    (∀ x, F.2.2 = some x → x ∉ used ∧
      (t ≤ M → (poLoop I t ((getItems po).take (k + 1)) []).2 = used ++ [x]) ∧
      (M < t → (poLoop I t ((getItems po).take (k + 1)) []).2 = used)) ∧
    (F.2.2 = none → (poLoop I t ((getItems po).take (k + 1)) []).2 = used) ∧
    (((compare_structures po inv t).getD k defaultRow).invoice_item =
      (match F.1 with | some it => it.description.getD "" | none => "")) := by
  intro I used d F M
  have hused := (poLoop_row_get I t (getItems po) [] k hk).2
  refine ⟨findBest_score I used d, fun hM => findBest_of_max_zero hM,
    fun hM => findBest_of_max_pos hM, ?_, ?_, ?_⟩
  · intro x hx
    have h := (stepRow_claim I t used ((getItems po).getD k default)).1 x hx
    refine ⟨h.1, ?_, ?_⟩
    · intro htM
      rw [hused]
      exact h.2.1 htM
    · intro htM
      rw [hused]
      exact h.2.2 htM
  · intro hx
    have h := (stepRow_claim I t used ((getItems po).getD k default)).2 hx
    rw [hused]
    exact h
  · rw [compare_getD_po_row po inv t k hk]
    rfl

lemma stepRow_used_of_claim {inv : List LineItem} {t : ℚ} {used : List Nat} {po_it : LineItem}
    {x : Nat} (hx : (findBest inv used (po_it.description.getD "")).2.2 = some x)
    (htc : t ≤ (findBest inv used (po_it.description.getD "")).2.1) :
    (stepRow inv t used po_it).2 = used ++ [x] := by
  rw [stepRow_used]
  simp only [hx]
  rw [if_pos htc, addIdx, if_neg (findBest_some hx).1]

lemma stepRow_used_of_none {inv : List LineItem} (t : ℚ) {used : List Nat} (po_it : LineItem)
    (hx : (findBest inv used (po_it.description.getD "")).2.2 = none) :
    (stepRow inv t used po_it).2 = used := by
  rw [stepRow_used]
  simp only [hx]

lemma stepRow_used_of_below {inv : List LineItem} {t : ℚ} {used : List Nat} {po_it : LineItem}
    {x : Nat} (hx : (findBest inv used (po_it.description.getD "")).2.2 = some x)
    (htc : (findBest inv used (po_it.description.getD "")).2.1 < t) :
    (stepRow inv t used po_it).2 = used := by
  rw [stepRow_used]
  simp only [hx]
  rw [if_neg (not_le.mpr htc)]

lemma claimIdx_shift (inv : List LineItem) (t : ℚ) (p : LineItem) (rest : List LineItem)
    (used : List Nat) (k : Nat) :
    claimIdx inv t (p :: rest) used (k + 1) =
      claimIdx inv t rest (stepRow inv t used p).2 k := rfl

lemma claimIdx_cons_zero (inv : List LineItem) (t : ℚ) (p : LineItem) (rest : List LineItem)
    (used : List Nat) :
    claimIdx inv t (p :: rest) used 0 =
      match (findBest inv used (p.description.getD "")).2.2 with
      | some idx =>
          if t ≤ (findBest inv used (p.description.getD "")).2.1 then some idx else none
      | none => none := rfl

lemma usedBefore_zero (inv : List LineItem) (t : ℚ) (po : List LineItem) (used : List Nat) :
    usedBefore inv t po used 0 = used := rfl

lemma usedBefore_succ (inv : List LineItem) (t : ℚ) (po : List LineItem) (used : List Nat)
    (k : Nat) (hk : k < po.length) :
    usedBefore inv t po used (k + 1) =
      (stepRow inv t (usedBefore inv t po used k) (po.getD k default)).2 :=
  (poLoop_row_get inv t po used k hk).2

/-- One row only ever grows the claimed set. -/
lemma stepRow_used_mono (inv : List LineItem) (t : ℚ) (used : List Nat) (p : LineItem) :
    used ⊆ (stepRow inv t used p).2 := by
  rw [stepRow_used]
  rcases hbi : (findBest inv used (p.description.getD "")).2.2 with _ | x
  · exact fun a ha => ha
  · show used ⊆
      if t ≤ (findBest inv used (p.description.getD "")).2.1 then addIdx used x else used
    by_cases htc : t ≤ (findBest inv used (p.description.getD "")).2.1
    · rw [if_pos htc]
      unfold addIdx
      by_cases hx : x ∈ used
      · rw [if_pos hx]
        exact fun a ha => ha
      · rw [if_neg hx]
        exact List.subset_append_left _ _
    · rw [if_neg htc]
      exact fun a ha => ha

lemma usedBefore_succ_subset (inv : List LineItem) (t : ℚ) (po : List LineItem)
    (used : List Nat) (k : Nat) :
    usedBefore inv t po used k ⊆ usedBefore inv t po used (k + 1) := by
  by_cases hk : k < po.length
  · rw [usedBefore_succ inv t po used k hk]
    exact stepRow_used_mono inv t (usedBefore inv t po used k) (po.getD k default)
  · have h1 : po.take k = po := List.take_of_length_le (le_of_not_lt hk)
    have h2 : po.take (k + 1) = po :=
      List.take_of_length_le (le_trans (le_of_not_lt hk) (Nat.le_succ k))
    unfold usedBefore
    rw [h1, h2]
    exact fun a ha => ha

/-- The claimed set grows monotonically along the rows. -/
lemma usedBefore_mono (inv : List LineItem) (t : ℚ) (po : List LineItem) (used : List Nat)
    (j : Nat) : ∀ k, j ≤ k → usedBefore inv t po used j ⊆ usedBefore inv t po used k := by
  intro k
  induction k with
  | zero =>
    intro h
    rw [Nat.le_zero.mp h]
    exact fun a ha => ha
  | succ k ih =>
    intro h
    rcases eq_or_lt_of_le h with h1 | h1
    · rw [h1]
      exact fun a ha => ha
    · exact fun a ha =>
        usedBefore_succ_subset inv t po used k (ih (Nat.lt_succ_iff.mp h1) ha)

/-- A row claims exactly a selected index whose best score reaches the
threshold. -/
lemma claimIdx_some {inv : List LineItem} {t : ℚ} {po : List LineItem} {used : List Nat}
    {k i : Nat} (h : claimIdx inv t po used k = some i) :
    (findBest inv (usedBefore inv t po used k)
        ((po.getD k default).description.getD "")).2.2 = some i ∧
      t ≤ (findBest inv (usedBefore inv t po used k)
        ((po.getD k default).description.getD "")).2.1 := by
  unfold claimIdx at h
  rcases hbi : (findBest inv (usedBefore inv t po used k)
      ((po.getD k default).description.getD "")).2.2 with _ | x
  · rw [hbi] at h
    exact absurd h (by simp)
  · rw [hbi] at h
    have h2 : (if t ≤ (findBest inv (usedBefore inv t po used k)
        ((po.getD k default).description.getD "")).2.1 then some x else none) = some i := h
    by_cases htc : t ≤ (findBest inv (usedBefore inv t po used k)
        ((po.getD k default).description.getD "")).2.1
    · rw [if_pos htc] at h2
      have h3 : x = i := Option.some.inj h2
      subst h3
      exact ⟨rfl, htc⟩
    · rw [if_neg htc] at h2
      exact absurd h2 (by simp)

/-- A claimed index is the selected index of its row. -/
lemma claimIdx_sel {inv : List LineItem} {t : ℚ} {po : List LineItem} {used : List Nat}
    {k i : Nat} (h : claimIdx inv t po used k = some i) :
    selIdx inv t po used k = some i :=
  (claimIdx_some h).1

/-- The index row `k` claims is in the claimed set from row `k + 1` on. -/
lemma claimIdx_mem {inv : List LineItem} {t : ℚ} {po : List LineItem} {used : List Nat}
    {k i : Nat} (hk : k < po.length) (h : claimIdx inv t po used k = some i) :
    i ∈ usedBefore inv t po used (k + 1) := by
  obtain ⟨hbi, htc⟩ := claimIdx_some h
  rw [usedBefore_succ inv t po used k hk, stepRow_used_of_claim hbi htc]
  exact List.mem_append_right _ (List.mem_singleton_self i)

/-- Any claimed index is in the final claimed set. -/
lemma claimIdx_mem_final {inv : List LineItem} {t : ℚ} {po : List LineItem} {used : List Nat}
    {k i : Nat} (hk : k < po.length) (h : claimIdx inv t po used k = some i) :
    i ∈ (poLoop inv t po used).2 := by
  have h1 : usedBefore inv t po used po.length = (poLoop inv t po used).2 := by
    unfold usedBefore
    rw [List.take_length]
  rw [← h1]
  exact usedBefore_mono inv t po used (k + 1) po.length hk (claimIdx_mem hk h)

/-- Once row `j` claims an index, the scan of any later row skips it, so it
can never be selected again. -/
lemma selIdx_ne_of_claimed {inv : List LineItem} {t : ℚ} {po : List LineItem} {used : List Nat}
    {j k i : Nat} (hjk : j < k) (hj : j < po.length)
    (h : claimIdx inv t po used j = some i) :
    selIdx inv t po used k ≠ some i := by
  intro hsel
  have hs : (findBest inv (usedBefore inv t po used k)
      ((po.getD k default).description.getD "")).2.2 = some i := hsel
  exact (findBest_some hs).1
    (usedBefore_mono inv t po used (j + 1) k hjk (claimIdx_mem hj h))

/-- The claimed set after one row is the set before it, extended by exactly
that row's claim. -/
lemma stepRow_used_eq_claim (inv : List LineItem) (t : ℚ) (used : List Nat) (p : LineItem)
    (rest : List LineItem) :
    (stepRow inv t used p).2 =
      match claimIdx inv t (p :: rest) used 0 with
      | some i => used ++ [i]
      | none => used := by
  rw [claimIdx_cons_zero]
  rcases hbi : (findBest inv used (p.description.getD "")).2.2 with _ | x
  · exact stepRow_used_of_none t p hbi
  · show (stepRow inv t used p).2 =
      match (if t ≤ (findBest inv used (p.description.getD "")).2.1
          then some x else none) with
      | some i => used ++ [i]
      | none => used
    by_cases htc : t ≤ (findBest inv used (p.description.getD "")).2.1
    · rw [if_pos htc]
      exact stepRow_used_of_claim hbi htc
    · rw [if_neg htc]
      exact stepRow_used_of_below hbi (not_le.mp htc)

/-- The final claimed set is the initial one followed by each row's claim,
in row order: the set is built exactly by the rows' `inv_used.add` calls. -/
lemma poLoop_used_eq_claims (inv : List LineItem) (t : ℚ) :
    ∀ (po : List LineItem) (used : List Nat),
      (poLoop inv t po used).2 =
        used ++ (List.range po.length).filterMap (claimIdx inv t po used) := by
  intro po
  induction po with
  | nil =>
    intro used
    simp [poLoop]
  | cons p rest ih =>
    intro used
    have hshift : claimIdx inv t (p :: rest) used ∘ Nat.succ =
        claimIdx inv t rest (stepRow inv t used p).2 := by
      funext k
      exact claimIdx_shift inv t p rest used k
    have hrec : (poLoop inv t (p :: rest) used).2 =
        (stepRow inv t used p).2 ++
          (List.range rest.length).filterMap
            (claimIdx inv t rest (stepRow inv t used p).2) := by
      rw [poLoop_cons]
      exact ih (stepRow inv t used p).2
    have hstep := stepRow_used_eq_claim inv t used p rest
    rcases hcz : claimIdx inv t (p :: rest) used 0 with _ | i
    · have hstep0 : (stepRow inv t used p).2 = used := by
        rw [hstep, hcz]
      rw [hrec, List.length_cons, List.range_succ_eq_map, List.filterMap_cons,
        hcz, List.filterMap_map, hshift, hstep0]
    · have hstep1 : (stepRow inv t used p).2 = used ++ [i] := by
        rw [hstep, hcz]
      rw [hrec, List.length_cons, List.range_succ_eq_map, List.filterMap_cons,
        hcz, List.filterMap_map, hshift, hstep1, List.append_assoc]
      rfl

/-- C5: one-to-one claim invariant.  `claimIdx` is the index row `k` claims
(`inv_used.add(best_idx)` when `best_idx is not None and best_score >=
threshold`, lines 96-97) and `selIdx` is the index row `k`'s scan selects
(line 93).  The final claimed set is exactly the rows' claims in row order;
an index claimed by row `j` is never claimed — indeed never even selected —
by any later row `k`; and a claimed index is excluded from the trailing
leftover-row list.  Hence no invoice-item index is claimed by more than one
purchase-order row, and each invoice item is claim-paired in at most one
output row. -/
theorem C5_claim_uniqueness (po inv : Option DocumentStruct) (t : ℚ) :
    (poLoop (getItems inv) t (getItems po) []).2 =
      (List.range (getItems po).length).filterMap
        (claimIdx (getItems inv) t (getItems po) []) ∧
    (∀ j k i, j < k → k < (getItems po).length →
      claimIdx (getItems inv) t (getItems po) [] j = some i →
      claimIdx (getItems inv) t (getItems po) [] k ≠ some i) ∧
    (∀ j k i, j < k → k < (getItems po).length →
      claimIdx (getItems inv) t (getItems po) [] j = some i →
      selIdx (getItems inv) t (getItems po) [] k ≠ some i) ∧
    (∀ k i, k < (getItems po).length →
      claimIdx (getItems inv) t (getItems po) [] k = some i →
      ∀ p ∈ (getItems inv).enum.filter
        (fun q => decide (q.1 ∉ (poLoop (getItems inv) t (getItems po) []).2)),
        p.1 ≠ i) := by
  refine ⟨?_, ?_, ?_, ?_⟩
  · have h := poLoop_used_eq_claims (getItems inv) t (getItems po) []
    rwa [List.nil_append] at h
  · intro j k i hjk hk hcj hck
    exact selIdx_ne_of_claimed hjk (lt_trans hjk hk) hcj (claimIdx_sel hck)
  · intro j k i hjk hk hcj
    exact selIdx_ne_of_claimed hjk (lt_trans hjk hk) hcj
  · intro k i hk hc p hp hpi
    have hmem := List.mem_filter.mp hp
    have hni : p.1 ∉ (poLoop (getItems inv) t (getItems po) []).2 := by
      simpa using hmem.2
    rw [hpi] at hni
    exact hni (claimIdx_mem_final hk hc)

lemma subset_append_single {l₁ l₂ : List Nat} (h : l₁ ⊆ l₂) (x : Nat) :
    l₁ ++ [x] ⊆ l₂ ++ [x] := by
  intro a ha
  rcases List.mem_append.mp ha with ha | ha
  · exact List.mem_append_left _ (h ha)
  · exact List.mem_append_right _ ha

lemma nodup_append_single {l : List Nat} {x : Nat} (hN : l.Nodup) (hx : x ∉ l) :
    (l ++ [x]).Nodup := by
  simp [List.nodup_append, hN, hx]

lemma bounds_append_single {l : List Nat} {x n : Nat} (hB : ∀ z ∈ l, z < n) (hx : x < n) :
    ∀ z ∈ l ++ [x], z < n := by
  intro z hz
  rcases List.mem_append.mp hz with hz | hz
  · exact hB z hz
  · simp at hz
    subst hz
    exact hx

/-- The joint simulation of two runs of the reconciliation loop with
thresholds `t1 ≤ t2`: the higher-threshold run claims a subset of the
other's claims, and its matched rows are dominated by the lower-threshold
run's matched rows plus the difference in freshly claimed items. -/
lemma C3_main (inv : List LineItem) (t1 t2 : ℚ) (ht : t1 ≤ t2) :
    ∀ (po : List LineItem) (usedA usedB : List Nat),
      usedB ⊆ usedA → usedA.Nodup → usedB.Nodup →
      (∀ x ∈ usedA, x < inv.length) → (∀ x ∈ usedB, x < inv.length) →
      (poLoop inv t2 po usedB).2 ⊆ (poLoop inv t1 po usedA).2 ∧
      (poLoop inv t2 po usedB).1.countP isMatchLike + (poLoop inv t1 po usedA).2.length
          + usedB.length ≤
        (poLoop inv t1 po usedA).1.countP isMatchLike + (poLoop inv t2 po usedB).2.length
          + usedA.length := by
  intro po
  induction po with
  | nil =>
    intro usedA usedB hsub hNA hNB hBA hBB
    refine ⟨hsub, ?_⟩
    simp only [poLoop, List.countP_nil]
    omega
  | cons p rest ih =>
    intro usedA usedB hsub hNA hNB hBA hBB
    rcases findBest_rel usedA usedB inv (p.description.getD "") hsub
      with heq | ⟨hle, y, hy, hyA⟩
    · -- the two scans agree
      rcases hbi : (findBest inv usedB (p.description.getD "")).2.2 with _ | x
      · -- no candidate selected in either run: nothing claimed
        have hbiA : (findBest inv usedA (p.description.getD "")).2.2 = none := by
          rw [heq]; exact hbi
        have hz := (findBest_none hbi).1
        have hzA := (findBest_none hbiA).1
        have hstepA := stepRow_used_of_none t1 p hbiA
        have hstepB := stepRow_used_of_none t2 p hbi
        obtain ⟨hsub', hineq⟩ := ih usedA usedB hsub hNA hNB hBA hBB
        constructor
        · rw [poLoop_cons, poLoop_cons, hstepA, hstepB]
          exact hsub'
        · have hvA : (findBest inv usedA (p.description.getD "")).2.1 = 0 := by
            rw [hzA]
          have hvB : (findBest inv usedB (p.description.getD "")).2.1 = 0 := by
            rw [hz]
          rw [poLoop_cons, poLoop_cons, hstepA, hstepB, List.countP_cons, List.countP_cons,
            stepRow_matchlike, stepRow_matchlike, hvA, hvB]
          simp only [decide_eq_true_eq]
          split_ifs with h1 h2 h2
          · omega
          · exact absurd (le_trans ht h1) h2
          · omega
          · omega
      · -- both scans select the same candidate x
        have hbiA : (findBest inv usedA (p.description.getD "")).2.2 = some x := by
          rw [heq]; exact hbi
        obtain ⟨hxB, hxl, -, -⟩ := findBest_some hbi
        obtain ⟨hxA, -, -, -⟩ := findBest_some hbiA
        have hveq : (findBest inv usedA (p.description.getD "")).2.1 =
            (findBest inv usedB (p.description.getD "")).2.1 := by rw [heq]
        by_cases h2 : t2 ≤ (findBest inv usedB (p.description.getD "")).2.1
        · -- both claim x
          have h1 : t1 ≤ (findBest inv usedA (p.description.getD "")).2.1 := by
            rw [hveq]; exact le_trans ht h2
          have hstepA := stepRow_used_of_claim hbiA h1
          have hstepB := stepRow_used_of_claim hbi h2
          obtain ⟨hsub', hineq⟩ := ih (usedA ++ [x]) (usedB ++ [x])
            (subset_append_single hsub x) (nodup_append_single hNA hxA)
            (nodup_append_single hNB hxB) (bounds_append_single hBA hxl)
            (bounds_append_single hBB hxl)
          constructor
          · rw [poLoop_cons, poLoop_cons, hstepA, hstepB]
            exact hsub'
          · rw [poLoop_cons, poLoop_cons, hstepA, hstepB, List.countP_cons, List.countP_cons,
              stepRow_matchlike, stepRow_matchlike]
            simp only [decide_eq_true_eq]
            rw [if_pos h1, if_pos h2]
            simp only [List.length_append, List.length_singleton] at hineq
            omega
        · -- neither claims: below t2 for B, and A agrees on the score
          by_cases h1 : t1 ≤ (findBest inv usedA (p.description.getD "")).2.1
          · -- A claims x, B does not
            have hstepA := stepRow_used_of_claim hbiA h1
            have hstepB := stepRow_used_of_below hbi (not_le.mp h2)
            obtain ⟨hsub', hineq⟩ := ih (usedA ++ [x]) usedB
              (List.Subset.trans hsub (List.subset_append_left _ _))
              (nodup_append_single hNA hxA) hNB (bounds_append_single hBA hxl) hBB
            constructor
            · rw [poLoop_cons, poLoop_cons, hstepA, hstepB]
              exact hsub'
            · rw [poLoop_cons, poLoop_cons, hstepA, hstepB, List.countP_cons, List.countP_cons,
                stepRow_matchlike, stepRow_matchlike]
              simp only [decide_eq_true_eq]
              rw [if_pos h1, if_neg h2]
              simp only [List.length_append, List.length_singleton] at hineq
              omega
          · -- neither claims nor matches
            have hstepA := stepRow_used_of_below hbiA (not_le.mp h1)
            have hstepB := stepRow_used_of_below hbi (not_le.mp h2)
            obtain ⟨hsub', hineq⟩ := ih usedA usedB hsub hNA hNB hBA hBB
            constructor
            · rw [poLoop_cons, poLoop_cons, hstepA, hstepB]
              exact hsub'
            · rw [poLoop_cons, poLoop_cons, hstepA, hstepB, List.countP_cons, List.countP_cons,
                stepRow_matchlike, stepRow_matchlike]
              simp only [decide_eq_true_eq]
              rw [if_neg h1, if_neg h2]
              omega
    · -- the runs diverge: B has selected an index y already claimed by A
      obtain ⟨hyB, hyl, -, -⟩ := findBest_some hy
      by_cases h2 : t2 ≤ (findBest inv usedB (p.description.getD "")).2.1
      · -- B claims y (which A claimed earlier)
        have hstepB := stepRow_used_of_claim hy h2
        have husedB' : usedB ++ [y] ⊆ usedA := by
          intro a ha
          rcases List.mem_append.mp ha with ha | ha
          · exact hsub ha
          · simp at ha
            subst ha
            exact hyA
        rcases hbiA : (findBest inv usedA (p.description.getD "")).2.2 with _ | xA
        · -- A selects nothing
          have hstepA := stepRow_used_of_none t1 p hbiA
          obtain ⟨hsub', hineq⟩ := ih usedA (usedB ++ [y])
            (by rw [hstepA] at *; exact List.Subset.trans husedB' (List.Subset.refl usedA))
            hNA (nodup_append_single hNB hyB) hBA (bounds_append_single hBB hyl)
          constructor
          · rw [poLoop_cons, poLoop_cons, hstepA, hstepB]
            exact hsub'
          · rw [poLoop_cons, poLoop_cons, hstepA, hstepB, List.countP_cons, List.countP_cons,
              stepRow_matchlike, stepRow_matchlike]
            simp only [decide_eq_true_eq]
            rw [if_pos h2]
            simp only [List.length_append, List.length_singleton] at hineq
            split_ifs <;> omega
        · by_cases h1 : t1 ≤ (findBest inv usedA (p.description.getD "")).2.1
          · -- A claims its own candidate xA
            obtain ⟨hxA, hxAl, -, -⟩ := findBest_some hbiA
            have hstepA := stepRow_used_of_claim hbiA h1
            obtain ⟨hsub', hineq⟩ := ih (usedA ++ [xA]) (usedB ++ [y])
              (List.Subset.trans husedB' (List.subset_append_left _ _))
              (nodup_append_single hNA hxA) (nodup_append_single hNB hyB)
              (bounds_append_single hBA hxAl) (bounds_append_single hBB hyl)
            constructor
            · rw [poLoop_cons, poLoop_cons, hstepA, hstepB]
              exact hsub'
            · rw [poLoop_cons, poLoop_cons, hstepA, hstepB, List.countP_cons, List.countP_cons,
                stepRow_matchlike, stepRow_matchlike]
              simp only [decide_eq_true_eq]
              rw [if_pos h1, if_pos h2]
              simp only [List.length_append, List.length_singleton] at hineq
              omega
          · -- A selects a candidate but does not claim it
            have hstepA := stepRow_used_of_below hbiA (not_le.mp h1)
            obtain ⟨hsub', hineq⟩ := ih usedA (usedB ++ [y]) husedB'
              hNA (nodup_append_single hNB hyB) hBA (bounds_append_single hBB hyl)
            constructor
            · rw [poLoop_cons, poLoop_cons, hstepA, hstepB]
              exact hsub'
            · rw [poLoop_cons, poLoop_cons, hstepA, hstepB, List.countP_cons, List.countP_cons,
                stepRow_matchlike, stepRow_matchlike]
              simp only [decide_eq_true_eq]
              rw [if_pos h2, if_neg h1]
              simp only [List.length_append, List.length_singleton] at hineq
              omega
      · -- B does not claim
        have hstepB := stepRow_used_of_below hy (not_le.mp h2)
        rcases hbiA : (findBest inv usedA (p.description.getD "")).2.2 with _ | xA
        · have hstepA := stepRow_used_of_none t1 p hbiA
          obtain ⟨hsub', hineq⟩ := ih usedA usedB hsub hNA hNB hBA hBB
          constructor
          · rw [poLoop_cons, poLoop_cons, hstepA, hstepB]
            exact hsub'
          · rw [poLoop_cons, poLoop_cons, hstepA, hstepB, List.countP_cons, List.countP_cons,
              stepRow_matchlike, stepRow_matchlike]
            simp only [decide_eq_true_eq]
            rw [if_neg h2]
            split_ifs <;> omega
        · by_cases h1 : t1 ≤ (findBest inv usedA (p.description.getD "")).2.1
          · obtain ⟨hxA, hxAl, -, -⟩ := findBest_some hbiA
            have hstepA := stepRow_used_of_claim hbiA h1
            obtain ⟨hsub', hineq⟩ := ih (usedA ++ [xA]) usedB
              (List.Subset.trans hsub (List.subset_append_left _ _))
              (nodup_append_single hNA hxA) hNB (bounds_append_single hBA hxAl) hBB
            constructor
            · rw [poLoop_cons, poLoop_cons, hstepA, hstepB]
              exact hsub'
            · rw [poLoop_cons, poLoop_cons, hstepA, hstepB, List.countP_cons, List.countP_cons,
                stepRow_matchlike, stepRow_matchlike]
              simp only [decide_eq_true_eq]
              rw [if_pos h1, if_neg h2]
              simp only [List.length_append, List.length_singleton] at hineq
              omega
          · have hstepA := stepRow_used_of_below hbiA (not_le.mp h1)
            obtain ⟨hsub', hineq⟩ := ih usedA usedB hsub hNA hNB hBA hBB
            constructor
            · rw [poLoop_cons, poLoop_cons, hstepA, hstepB]
              exact hsub'
            · rw [poLoop_cons, poLoop_cons, hstepA, hstepB, List.countP_cons, List.countP_cons,
                stepRow_matchlike, stepRow_matchlike]
              simp only [decide_eq_true_eq]
              rw [if_neg h1, if_neg h2]
              omega

lemma nodup_subset_length_le {l₁ l₂ : List Nat} (hN : l₁.Nodup) (hsub : l₁ ⊆ l₂) :
    l₁.length ≤ l₂.length :=
  (List.subperm_of_subset hN hsub).length_le

lemma nodup_bounds_length_le {l : List Nat} {n : Nat} (hN : l.Nodup) (hB : ∀ x ∈ l, x < n) :
    l.length ≤ n := by
  have h := nodup_subset_length_le hN
    (show l ⊆ List.range n from fun x hx => List.mem_range.mpr (hB x hx))
  simpa using h

lemma poLoop_count_split (inv : List LineItem) (t : ℚ) :
    ∀ (po : List LineItem) (used : List Nat),
      (poLoop inv t po used).1.countP isMismatch + (poLoop inv t po used).1.countP isMatchLike
        = po.length := by
  intro po
  induction po with
  | nil => intro used; rfl
  | cons p rest ih =>
    intro used
    rw [poLoop_cons]
    simp only [List.countP_cons, stepRow_matchlike, stepRow_mismatch, decide_eq_true_eq]
    have := ih (stepRow inv t used p).2
    by_cases h : t ≤ (findBest inv used (p.description.getD "")).2.1
    · rw [if_pos h, if_neg (not_lt.mpr h)]
      simp only [List.length_cons]
      omega
    · rw [if_neg h, if_pos (not_le.mp h)]
      simp only [List.length_cons]
      omega

lemma trailing_not_matchlike (it : LineItem) : isMatchLike (mkLeftoverRow it) = false := rfl

lemma trailing_mismatch (it : LineItem) : isMismatch (mkLeftoverRow it) = true := rfl

lemma compare_countP_matchlike (po inv : Option DocumentStruct) (t : ℚ) :
    (compare_structures po inv t).countP isMatchLike =
      (poLoop (getItems inv) t (getItems po) []).1.countP isMatchLike := by
  rw [compare_structures_decomp po inv t, List.countP_append]
  have hz : (((getItems inv).enum.filter
      (fun p => decide (p.1 ∉ (poLoop (getItems inv) t (getItems po) []).2))).map
        (fun p => mkLeftoverRow p.2)).countP isMatchLike = 0 := by
    rw [List.countP_eq_zero]
    intro r hr
    obtain ⟨q, -, hq⟩ := List.mem_map.mp hr
    rw [← hq]
    simp [trailing_not_matchlike]
  omega

lemma compare_countP_mismatch (po inv : Option DocumentStruct) (t : ℚ) :
    (compare_structures po inv t).countP isMismatch =
      (poLoop (getItems inv) t (getItems po) []).1.countP isMismatch +
        ((getItems inv).length - (poLoop (getItems inv) t (getItems po) []).2.length) := by
  obtain ⟨hN, hB, -⟩ :=
    poLoop_used_invariant (getItems inv) t (getItems po) [] List.nodup_nil (by simp)
  rw [compare_structures_decomp po inv t, List.countP_append]
  have hall : (((getItems inv).enum.filter
      (fun p => decide (p.1 ∉ (poLoop (getItems inv) t (getItems po) []).2))).map
        (fun p => mkLeftoverRow p.2)).countP isMismatch =
      (((getItems inv).enum.filter
        (fun p => decide (p.1 ∉ (poLoop (getItems inv) t (getItems po) []).2))).map
          (fun p => mkLeftoverRow p.2)).length := by
    rw [List.countP_eq_length]
    intro r hr
    obtain ⟨q, -, hq⟩ := List.mem_map.mp hr
    rw [← hq]
    exact trailing_mismatch q.2
  rw [hall, List.length_map, unclaimed_count (getItems inv) _ hN (fun x hx => hB x hx)]

/-- C3: threshold monotonicity.  For fixed inputs and thresholds
`t1 ≤ t2`, the count of `Match`/`Partial Match` rows under `t2` never
exceeds the count under `t1`, and the count of `Mismatch` rows under `t2`
is never below the count under `t1`. -/
theorem C3_threshold_monotonicity (po inv : Option DocumentStruct) (t1 t2 : ℚ)
    (ht : t1 ≤ t2) :
    (compare_structures po inv t2).countP isMatchLike ≤
      (compare_structures po inv t1).countP isMatchLike ∧
    (compare_structures po inv t1).countP isMismatch ≤
      (compare_structures po inv t2).countP isMismatch := by
  obtain ⟨hNA, hBA, -⟩ :=
    poLoop_used_invariant (getItems inv) t1 (getItems po) [] List.nodup_nil (by simp)
  obtain ⟨hNB, hBB, -⟩ :=
    poLoop_used_invariant (getItems inv) t2 (getItems po) [] List.nodup_nil (by simp)
  obtain ⟨hsub, hineq⟩ := C3_main (getItems inv) t1 t2 ht (getItems po) [] []
    (List.Subset.refl []) List.nodup_nil List.nodup_nil (by simp) (by simp)
  have hlenBA : (poLoop (getItems inv) t2 (getItems po) []).2.length ≤
      (poLoop (getItems inv) t1 (getItems po) []).2.length :=
    nodup_subset_length_le hNB hsub
  have hlenA : (poLoop (getItems inv) t1 (getItems po) []).2.length ≤ (getItems inv).length :=
    nodup_bounds_length_le hNA hBA
  have hlenB : (poLoop (getItems inv) t2 (getItems po) []).2.length ≤ (getItems inv).length :=
    nodup_bounds_length_le hNB hBB
  have hsplitA := poLoop_count_split (getItems inv) t1 (getItems po) []
  have hsplitB := poLoop_count_split (getItems inv) t2 (getItems po) []
  constructor
  · rw [compare_countP_matchlike po inv t1, compare_countP_matchlike po inv t2]
    simp only [List.length_nil, Nat.add_zero] at hineq
    omega
  · rw [compare_countP_mismatch po inv t1, compare_countP_mismatch po inv t2]
    simp only [List.length_nil, Nat.add_zero] at hineq
    omega

lemma ts_abc_abc : token_similarity "abc" "abc" = 1 := by
  rw [token_similarity_val "abc" "abc" 1 1 3 3 3 (by decide) (by decide) (by decide)
    (by decide) (by decide)]
  norm_num

lemma ts_abc_xyz : token_similarity "abc" "xyz" = 0 := by
  rw [token_similarity_val "abc" "xyz" 0 2 0 3 3 (by decide) (by decide) (by decide)
    (by decide) (by decide)]
  norm_num

lemma findBest_abc_abc :
    findBest [{ description := some "abc" }] [] "abc" =
      (some { description := some "abc" }, 1, some 0) := by
  simp only [findBest, List.enum, List.enumFrom, findBestGo]
  norm_num [ts_abc_abc]

lemma findBest_abc_xyz :
    findBest [{ description := some "xyz" }] [] "abc" = (none, 0, none) := by
  simp only [findBest, List.enum, List.enumFrom, findBestGo]
  norm_num [ts_abc_xyz]

/-- C1 (counterexample): with both `total` keys absent and the best score at
or above the threshold, the code classifies the row `Match`, not
`PartialMatch` as the claim's "or either total is absent" clause demands. -/
theorem C1_cx :
    ((getItems poDocA).getD 0 default).total = none ∧
    ((getItems invDocA).getD 0 default).total = none ∧
    (1 : ℚ) / 2 ≤ (findBest (getItems invDocA) [] "abc").2.1 ∧
    ((compare_structures poDocA invDocA (1 / 2)).getD 0 defaultRow).status = "Match" := by
  refine ⟨rfl, rfl, ?_, ?_⟩
  · show (1 : ℚ) / 2 ≤ (findBest [{ description := some "abc" }] [] "abc").2.1
    rw [findBest_abc_abc]
    norm_num
  · show ((compare_structures poDocA invDocA (1 / 2)).getD 0 defaultRow).status = "Match"
    simp only [poDocA, invDocA, compare_structures, getItems, Option.getD, poLoop, stepRow]
    simp only [findBest_abc_abc]
    norm_num

/-- C4 (counterexample): a candidate invoice item exists (`"xyz"`), its
score against `"abc"` is the best score `0.0`, yet the code reports no
candidate at all in the row's invoice fields (the claim says the
best-scoring candidate, if any exists, is still reported). -/
theorem C4_cx :
    (getItems invDocX).length = 1 ∧
    ((compare_structures poDocA invDocX (1 / 2)).getD 0 defaultRow).invoice_item = "" ∧
    ((compare_structures poDocA invDocX (1 / 2)).getD 0 defaultRow).status = "Mismatch" := by
  refine ⟨rfl, ?_, ?_⟩
  · show ((compare_structures poDocA invDocX (1 / 2)).getD 0 defaultRow).invoice_item = ""
    simp only [poDocA, invDocX, compare_structures, getItems, Option.getD, poLoop, stepRow]
    simp only [findBest_abc_xyz]
    norm_num
  · show ((compare_structures poDocA invDocX (1 / 2)).getD 0 defaultRow).status = "Mismatch"
    simp only [poDocA, invDocX, compare_structures, getItems, Option.getD, poLoop, stepRow]
    simp only [findBest_abc_xyz]
    norm_num

/-- C7 (counterexample): `"!"` is a non-empty string, but `score("!", "!")`
is `0.5`, not `1.0` (it has no word tokens, so the token component is 0). -/
theorem C7_cx : "!" ≠ "" ∧ token_similarity "!" "!" ≠ 1 := by
  constructor
  · decide
  · rw [token_similarity_val "!" "!" 0 0 1 1 1 (by decide) (by decide) (by decide)
      (by decide) (by decide)]
    norm_num

/-- Witness for C1 (amended) at a concrete input. -/
theorem C1_amended_witness :
    0 < (getItems poDocA).length ∧
    ((compare_structures poDocA invDocA (1 / 2)).getD 0 defaultRow).status = "Match" := by
  refine ⟨by decide, ?_⟩
  have h := (C1_amended poDocA invDocA (1 / 2) 0 (by decide)).1
  refine h ?_ ?_
  · show (1 : ℚ) / 2 ≤ (findBest [{ description := some "abc" }] [] "abc").2.1
    rw [findBest_abc_abc]
    norm_num
  · show ("" : String) =
      match (findBest [{ description := some "abc" }] [] "abc").1 with
        | some it => it.total.getD "" | none => ""
    simp only [findBest_abc_abc]
    rfl

/-- Witness for C3 at a concrete input. -/
theorem C3_witness :
    (0 : ℚ) ≤ 1 ∧
    ((compare_structures poDocA invDocA 1).countP isMatchLike ≤
        (compare_structures poDocA invDocA 0).countP isMatchLike ∧
      (compare_structures poDocA invDocA 0).countP isMismatch ≤
        (compare_structures poDocA invDocA 1).countP isMismatch) :=
  ⟨by norm_num, C3_threshold_monotonicity poDocA invDocA 0 1 (by norm_num)⟩

/-- Witness for C4 (amended) at a concrete input. -/
theorem C4_amended_witness :
    0 < (getItems poDocA).length ∧
    (findBest (getItems invDocX) (poLoop (getItems invDocX) (1 / 2)
        ((getItems poDocA).take 0) []).2
      (((getItems poDocA).getD 0 default).description.getD "")).2.1 =
      maxScore (((getItems poDocA).getD 0 default).description.getD "")
        (poLoop (getItems invDocX) (1 / 2) ((getItems poDocA).take 0) []).2
        (getItems invDocX).enum :=
  ⟨by decide, (C4_amended poDocA invDocX (1 / 2) 0 (by decide)).1⟩

lemma findBest_B_row0 :
    findBest [{ description := some "abc" }, { description := some "xyz" }] [] "abc" =
      (some { description := some "abc" }, 1, some 0) := by
  simp only [findBest, List.enum, List.enumFrom, findBestGo]
  norm_num [ts_abc_abc, ts_abc_xyz]

lemma findBest_B_row1 :
    findBest [{ description := some "abc" }, { description := some "xyz" }] [0] "abc" =
      (none, 0, none) := by
  simp only [findBest, List.enum, List.enumFrom, findBestGo]
  norm_num [ts_abc_xyz]

lemma stepRow_B0 :
    (stepRow (getItems invDocB) (1 / 2) []
      ({ description := some "abc" } : LineItem)).2 = [0] := by
  rw [stepRow_used]
  have e1 : ({ description := some "abc" } : LineItem).description.getD "" = "abc" := rfl
  have e2 : getItems invDocB =
      [{ description := some "abc" }, { description := some "xyz" }] := rfl
  rw [e2, e1, findBest_B_row0]
  show (if (1 : ℚ) / 2 ≤ 1 then addIdx [] 0 else []) = [0]
  rw [if_pos (by norm_num : (1 : ℚ) / 2 ≤ 1)]
  rfl

lemma stepRow_B1 :
    (stepRow (getItems invDocB) (1 / 2) [0]
      ({ description := some "abc" } : LineItem)).2 = [0] := by
  rw [stepRow_used]
  have e1 : ({ description := some "abc" } : LineItem).description.getD "" = "abc" := rfl
  have e2 : getItems invDocB =
      [{ description := some "abc" }, { description := some "xyz" }] := rfl
  rw [e2, e1, findBest_B_row1]

lemma poLoop_B_used :
    (poLoop (getItems invDocB) (1 / 2) (getItems poDocB) []).2 = [0] := by
  show (stepRow (getItems invDocB) (1 / 2)
      (stepRow (getItems invDocB) (1 / 2) [] { description := some "abc" }).2
      { description := some "abc" }).2 = [0]
  rw [stepRow_B0]
  exact stepRow_B1

lemma claimIdx_B_zero :
    claimIdx (getItems invDocB) (1 / 2) (getItems poDocB) [] 0 = some 0 := by
  unfold claimIdx
  have e0 : usedBefore (getItems invDocB) (1 / 2) (getItems poDocB) [] 0 = [] := rfl
  have e1 : ((getItems poDocB).getD 0 default).description.getD "" = "abc" := rfl
  have e2 : getItems invDocB =
      [{ description := some "abc" }, { description := some "xyz" }] := rfl
  rw [e0, e1, e2, findBest_B_row0]
  show (if (1 : ℚ) / 2 ≤ 1 then some 0 else none) = some 0
  rw [if_pos (by norm_num : (1 : ℚ) / 2 ≤ 1)]

/-- Witness for C5 at a concrete input: the first purchase-order row claims
invoice index `0`; the second row neither claims nor even selects it, and
no leftover row carries it. -/
theorem C5_witness :
    claimIdx (getItems invDocB) (1 / 2) (getItems poDocB) [] 0 = some 0 ∧
    claimIdx (getItems invDocB) (1 / 2) (getItems poDocB) [] 1 ≠ some 0 ∧
    selIdx (getItems invDocB) (1 / 2) (getItems poDocB) [] 1 ≠ some 0 ∧
    ((1, ({ description := some "xyz" } : LineItem)) ∈
      (getItems invDocB).enum.filter
        (fun q => decide (q.1 ∉ (poLoop (getItems invDocB) (1 / 2) (getItems poDocB) []).2))) ∧
    (1 : Nat) ≠ 0 := by
  have hmem : (1, ({ description := some "xyz" } : LineItem)) ∈
      (getItems invDocB).enum.filter
        (fun q => decide (q.1 ∉ (poLoop (getItems invDocB) (1 / 2) (getItems poDocB) []).2)) := by
    simp only [poLoop_B_used]
    decide
  refine ⟨claimIdx_B_zero, ?_, ?_, hmem, ?_⟩
  · exact (C5_claim_uniqueness poDocB invDocB (1 / 2)).2.1 0 1 0 (by decide) (by decide)
      claimIdx_B_zero
  · exact (C5_claim_uniqueness poDocB invDocB (1 / 2)).2.2.1 0 1 0 (by decide) (by decide)
      claimIdx_B_zero
  · exact (C5_claim_uniqueness poDocB invDocB (1 / 2)).2.2.2 0 0 (by decide) claimIdx_B_zero
      (1, { description := some "xyz" }) hmem

/-- Witness for C10 at a concrete input. -/
theorem C10_witness :
    (0 : ℚ) ≤ 0 ∧ 0 < (getItems poDocEmpty).length ∧
    ((getItems poDocEmpty).getD 0 default).total = none ∧
    (((compare_structures poDocEmpty (some { items := some [] }) 0).getD 0 defaultRow).status
        = "Match" ∧
      ((compare_structures poDocEmpty (some { items := some [] }) 0).getD 0
          defaultRow).invoice_item = "" ∧
      ((compare_structures poDocEmpty (some { items := some [] }) 0).getD 0
          defaultRow).invoice_total = "") :=
  ⟨le_refl 0, by decide, rfl, C10_match_on_empty poDocEmpty 0 (le_refl 0) 0 (by decide) rfl⟩

lemma b2j_mem {s : List Char} {c : Char} {j : Nat} (h : j ∈ b2j s c) :
    j < s.length ∧ s.get? j = some c := by
  simp only [b2j] at h
  by_cases hC : 200 ≤ s.length ∧ s.length / 100 + 1 <
      ((List.range s.length).filter (fun j => s.get? j == some c)).length
  · rw [if_pos hC] at h
    exact absurd h (List.not_mem_nil j)
  · rw [if_neg hC] at h
    obtain ⟨h1, h2⟩ := List.mem_filter.mp h
    exact ⟨List.mem_range.mp h1, by simpa using h2⟩

lemma b2j_self_mem {s : List Char} {i : Nat} (hi : i < s.length)
    (hne : ¬(b2j s (s.getD i ' ')).isEmpty) : i ∈ b2j s (s.getD i ' ') := by
  have hget : s.get? i = some (s.getD i ' ') := by
    rw [List.getD_eq_get _ _ hi, List.get?_eq_get hi]
  simp only [b2j] at hne ⊢
  by_cases hC : 200 ≤ s.length ∧ s.length / 100 + 1 <
      ((List.range s.length).filter (fun j => s.get? j == some (s.getD i ' '))).length
  · rw [if_pos hC] at hne
    exact absurd rfl hne
  · rw [if_neg hC]
    refine List.mem_filter.mpr ⟨List.mem_range.mpr hi, ?_⟩
    simpa using hget

lemma b2j_eq_of_mem {s : List Char} {c : Char} {j : Nat} (h : j ∈ b2j s c) :
    b2j s (s.getD j ' ') = b2j s c := by
  obtain ⟨hj, hget⟩ := b2j_mem h
  have : s.getD j ' ' = c := by
    rw [List.getD_eq_get _ _ hj]
    rw [List.get?_eq_get hj] at hget
    exact Option.some.inj hget
  rw [this]

lemma jsOf_eq (s : List Char) (i : Nat) : jsOf s i = b2j s (s.getD i ' ') := by
  unfold jsOf
  rw [List.filter_eq_self]
  intro j hj
  have := (b2j_mem hj).1
  simp [this]

lemma runl_of_empty {s : List Char} {i : Nat} (h : (b2j s (s.getD i ' ')).isEmpty) :
    runl s i = 0 := by
  cases i with
  | zero =>
    show (if (b2j s (s.getD 0 ' ')).isEmpty then 0 else 1) = 0
    rw [if_pos h]
  | succ i =>
    show (if (b2j s (s.getD (i + 1) ' ')).isEmpty then 0 else runl s i + 1) = 0
    rw [if_pos h]

lemma runl_of_ne {s : List Char} {i : Nat} (h : ¬(b2j s (s.getD i ' ')).isEmpty) :
    runl s i = (if i = 0 then 0 else runl s (i - 1)) + 1 := by
  cases i with
  | zero =>
    show (if (b2j s (s.getD 0 ' ')).isEmpty then 0 else 1) = (if (0:Nat) = 0 then 0 else runl s (0 - 1)) + 1
    rw [if_neg h, if_pos rfl]
  | succ i =>
    show (if (b2j s (s.getD (i + 1) ' ')).isEmpty then 0 else runl s i + 1) =
      (if i + 1 = 0 then 0 else runl s (i + 1 - 1)) + 1
    rw [if_neg h, if_neg (Nat.succ_ne_zero i)]
    rfl

lemma runl_le (s : List Char) : ∀ i : Nat, runl s i ≤ i + 1 := by
  intro i
  induction i with
  | zero =>
    by_cases h : (b2j s (s.getD 0 ' ')).isEmpty
    · rw [runl_of_empty h]
      omega
    · rw [runl_of_ne h]
      simp
  | succ i ih =>
    by_cases h : (b2j s (s.getD (i + 1) ' ')).isEmpty
    · rw [runl_of_empty h]
      omega
    · rw [runl_of_ne h]
      simp only [Nat.succ_ne_zero, if_false, Nat.add_sub_cancel]
      omega

lemma flmRow_step (j2len : Nat → Nat) (i j : Nat) (rest : List Nat) (nj2 : Nat → Nat)
    (bi bj bs : Nat) :
    flmRow j2len i (j :: rest) nj2 bi bj bs =
      if bs < kOf j2len j
      then flmRow j2len i rest (fun x => if x = j then kOf j2len j else nj2 x)
        (i + 1 - kOf j2len j) (j + 1 - kOf j2len j) (kOf j2len j)
      else flmRow j2len i rest (fun x => if x = j then kOf j2len j else nj2 x) bi bj bs := rfl

lemma flmRow_nj2 (j2len : Nat → Nat) (i : Nat) :
    ∀ (l : List Nat) (nj2 : Nat → Nat) (bi bj bs : Nat),
      (flmRow j2len i l nj2 bi bj bs).1 =
        fun x => if x ∈ l then kOf j2len x else nj2 x := by
  intro l
  induction l with
  | nil =>
    intro nj2 bi bj bs
    funext x
    simp [flmRow]
  | cons j rest ih =>
    intro nj2 bi bj bs
    rw [flmRow_step]
    by_cases hk : bs < kOf j2len j
    · rw [if_pos hk, ih]
      funext x
      by_cases hxr : x ∈ rest
      · simp [hxr]
      · by_cases hxj : x = j
        · subst hxj
          simp [hxr]
        · simp [hxr, hxj]
    · rw [if_neg hk, ih]
      funext x
      by_cases hxr : x ∈ rest
      · simp [hxr]
      · by_cases hxj : x = j
        · subst hxj
          simp [hxr]
        · simp [hxr, hxj]

lemma flmRow_best_frozen (j2len : Nat → Nat) (i : Nat) :
    ∀ (l : List Nat) (nj2 : Nat → Nat) (bi bj bs : Nat),
      (∀ j ∈ l, kOf j2len j ≤ bs) →
      (flmRow j2len i l nj2 bi bj bs).2 = (bi, bj, bs) := by
  intro l
  induction l with
  | nil => intro nj2 bi bj bs _; rfl
  | cons j rest ih =>
    intro nj2 bi bj bs hall
    rw [flmRow_step, if_neg (not_lt.mpr (hall j (List.mem_cons_self j rest)))]
    exact ih _ bi bj bs (fun x hx => hall x (List.mem_cons_of_mem j hx))

lemma flmRow_append (j2len : Nat → Nat) (i : Nat) :
    ∀ (l₁ l₂ : List Nat) (nj2 : Nat → Nat) (bi bj bs : Nat),
      flmRow j2len i (l₁ ++ l₂) nj2 bi bj bs =
        flmRow j2len i l₂ (flmRow j2len i l₁ nj2 bi bj bs).1
          (flmRow j2len i l₁ nj2 bi bj bs).2.1
          (flmRow j2len i l₁ nj2 bi bj bs).2.2.1
          (flmRow j2len i l₁ nj2 bi bj bs).2.2.2 := by
  intro l₁
  induction l₁ with
  | nil => intro l₂ nj2 bi bj bs; rfl
  | cons j rest ih =>
    intro l₂ nj2 bi bj bs
    rw [List.cons_append, flmRow_step, flmRow_step]
    by_cases hk : bs < kOf j2len j
    · rw [if_pos hk, if_pos hk, ih]
    · rw [if_neg hk, if_neg hk, ih]

lemma b2j_pairwise (s : List Char) (c : Char) : (b2j s c).Pairwise (· < ·) := by
  unfold b2j
  by_cases hC : 200 ≤ s.length ∧ s.length / 100 + 1 <
      ((List.range s.length).filter (fun j => s.get? j == some c)).length
  · rw [if_pos hC]
    exact List.Pairwise.nil
  · rw [if_neg hC]
    exact (List.pairwise_lt_range s.length).sublist (List.filter_sublist _)

/-- One row of the self-comparison dynamic program preserves the invariant. -/
lemma flm_row_self (s : List Char) (i : Nat) (hi : i < s.length) (j2len : Nat → Nat)
    (bi bj bs : Nat) (hinv : FlmInv s i j2len bi bj bs) :
    FlmInv s (i + 1)
      (flmRow j2len i (jsOf s i) (fun _ => 0) bi bj bs).1
      (flmRow j2len i (jsOf s i) (fun _ => 0) bi bj bs).2.1
      (flmRow j2len i (jsOf s i) (fun _ => 0) bi bj bs).2.2.1
      (flmRow j2len i (jsOf s i) (fun _ => 0) bi bj bs).2.2.2 := by
  obtain ⟨hB2, hB3, hB4, hB1, hP1, hP2, hP3⟩ := hinv
  rw [jsOf_eq]
  by_cases hemp : (b2j s (s.getD i ' ')).isEmpty
  · -- purged (or absent) character: the row walks no candidates
    have hnil : b2j s (s.getD i ' ') = [] := List.isEmpty_iff.mp hemp
    rw [hnil]
    show FlmInv s (i + 1) (fun _ => 0) bi bj bs
    have hr : runl s i = 0 := runl_of_empty hemp
    refine ⟨hB2, hB3, hB4, ?_, ?_, ?_, ?_⟩
    · intro j hj
      rcases Nat.lt_succ_iff_lt_or_eq.mp hj with hj | hj
      · exact hB1 j hj
      · subst hj
        rw [hr]
        exact Nat.zero_le bs
    · intro j
      exact Nat.zero_le _
    · intro j
      exact Nat.zero_le _
    · intro _
      rw [Nat.add_sub_cancel, hr]
  · -- the character is un-purged: the diagonal run extends
    have hmem : i ∈ b2j s (s.getD i ' ') := b2j_self_mem hi hemp
    have hrunl : runl s i = (if i = 0 then 0 else runl s (i - 1)) + 1 := runl_of_ne hemp
    have hr1 : 1 ≤ runl s i := by
      rw [hrunl]
      exact Nat.succ_le_succ (Nat.zero_le _)
    have hK1 : ∀ j ∈ b2j s (s.getD i ' '), kOf j2len j ≤ runl s j := by
      intro j hj
      have h2 : b2j s (s.getD j ' ') = b2j s (s.getD i ' ') := b2j_eq_of_mem hj
      have hne2 : ¬(b2j s (s.getD j ' ')).isEmpty := by
        rw [h2]
        exact hemp
      rw [runl_of_ne hne2]
      unfold kOf
      by_cases hj0 : j = 0
      · rw [if_pos hj0, if_pos hj0]
      · rw [if_neg hj0, if_neg hj0]
        exact Nat.succ_le_succ (hP1 (j - 1))
    have hK2 : ∀ j ∈ b2j s (s.getD i ' '), kOf j2len j ≤ runl s i := by
      intro j hj
      rw [hrunl]
      unfold kOf
      by_cases hj0 : j = 0
      · rw [if_pos hj0]
        exact Nat.succ_le_succ (Nat.zero_le _)
      · rw [if_neg hj0]
        exact Nat.succ_le_succ (hP2 (j - 1))
    have hK3 : kOf j2len i = runl s i := by
      rw [hrunl]
      unfold kOf
      by_cases hi0 : i = 0
      · rw [if_pos hi0, if_pos hi0]
      · rw [if_neg hi0, if_neg hi0, hP3 (Nat.pos_of_ne_zero hi0)]
    obtain ⟨l₁, l₂, hsplit⟩ := List.append_of_mem hmem
    have hpair := b2j_pairwise s (s.getD i ' ')
    rw [hsplit] at hpair
    obtain ⟨p₁, p₂, hcross⟩ := List.pairwise_append.mp hpair
    have hl₁ : ∀ x ∈ l₁, x < i := fun x hx => hcross x hx i (List.mem_cons_self i l₂)
    have hl₂ : ∀ y ∈ l₂, i < y := (List.pairwise_cons.mp p₂).1
    -- stage 1: the columns left of the diagonal change nothing
    have hS1 : flmRow j2len i l₁ (fun _ => 0) bi bj bs =
        ((fun x => if x ∈ l₁ then kOf j2len x else 0), bi, bj, bs) := by
      have h1 := flmRow_nj2 j2len i l₁ (fun _ => 0) bi bj bs
      have h2 := flmRow_best_frozen j2len i l₁ (fun _ => 0) bi bj bs
        (fun j hj => le_trans (hK1 j (by rw [hsplit]; exact List.mem_append_left _ hj))
          (hB1 j (hl₁ j hj)))
      exact Prod.ext h1 h2
    have hfull : flmRow j2len i (l₁ ++ i :: l₂) (fun _ => 0) bi bj bs =
        flmRow j2len i (i :: l₂) (fun x => if x ∈ l₁ then kOf j2len x else 0) bi bj bs := by
      rw [flmRow_append, hS1]
    -- the best block after the whole row
    have hl₂k : ∀ j ∈ l₂, kOf j2len j ≤ runl s i := fun j hj =>
      hK2 j (by rw [hsplit]; exact List.mem_append_right _ (List.mem_cons_of_mem i hj))
    have hbest : (flmRow j2len i (b2j s (s.getD i ' ')) (fun _ => 0) bi bj bs).2 =
        if bs < runl s i
        then (i + 1 - runl s i, i + 1 - runl s i, runl s i)
        else (bi, bj, bs) := by
      rw [hsplit, hfull, flmRow_step, hK3]
      by_cases hlt : bs < runl s i
      · rw [if_pos hlt, if_pos hlt]
        exact flmRow_best_frozen j2len i l₂ _ _ _ _ (fun j hj => hl₂k j hj)
      · rw [if_neg hlt, if_neg hlt]
        exact flmRow_best_frozen j2len i l₂ _ _ _ _
          (fun j hj => le_trans (hl₂k j hj) (not_lt.mp hlt))
    have hnj2 : (flmRow j2len i (b2j s (s.getD i ' ')) (fun _ => 0) bi bj bs).1 =
        fun x => if x ∈ b2j s (s.getD i ' ') then kOf j2len x else 0 :=
      flmRow_nj2 j2len i _ _ bi bj bs
    -- the three j2len clauses of the new invariant, shared by both branches
    have hp1' : ∀ j, (flmRow j2len i (b2j s (s.getD i ' ')) (fun _ => 0) bi bj bs).1 j ≤
        runl s j := by
      intro j
      rw [hnj2]
      by_cases hj : j ∈ b2j s (s.getD i ' ')
      · simp only [hj, if_true]
        exact hK1 j hj
      · simp only [hj, if_false]
        exact Nat.zero_le _
    have hp2' : ∀ j, (flmRow j2len i (b2j s (s.getD i ' ')) (fun _ => 0) bi bj bs).1 j ≤
        if i + 1 = 0 then 0 else runl s (i + 1 - 1) := by
      intro j
      rw [if_neg (Nat.succ_ne_zero i), Nat.add_sub_cancel, hnj2]
      by_cases hj : j ∈ b2j s (s.getD i ' ')
      · simp only [hj, if_true]
        exact hK2 j hj
      · simp only [hj, if_false]
        exact Nat.zero_le _
    have hp3' : 0 < i + 1 → (flmRow j2len i (b2j s (s.getD i ' ')) (fun _ => 0) bi bj bs).1
        (i + 1 - 1) = runl s (i + 1 - 1) := by
      intro _
      rw [Nat.add_sub_cancel, hnj2]
      simp only [hmem, if_true]
      exact hK3
    by_cases hlt : bs < runl s i
    · have e1 : (flmRow j2len i (b2j s (s.getD i ' ')) (fun _ => 0) bi bj bs).2.1 =
          i + 1 - runl s i := by rw [hbest, if_pos hlt]
      have e2 : (flmRow j2len i (b2j s (s.getD i ' ')) (fun _ => 0) bi bj bs).2.2.1 =
          i + 1 - runl s i := by rw [hbest, if_pos hlt]
      have e3 : (flmRow j2len i (b2j s (s.getD i ' ')) (fun _ => 0) bi bj bs).2.2.2 =
          runl s i := by rw [hbest, if_pos hlt]
      have hle := runl_le s i
      refine ⟨by rw [e1, e2], ?_, ?_, ?_, hp1', hp2', hp3'⟩
      · rw [e1, e3]
        omega
      · rw [e3, e1]
        intro h
        omega
      · intro j hj
        rw [e3]
        rcases Nat.lt_succ_iff_lt_or_eq.mp hj with hj | hj
        · exact le_trans (hB1 j hj) (le_of_lt hlt)
        · subst hj
          exact le_refl _
    · have e1 : (flmRow j2len i (b2j s (s.getD i ' ')) (fun _ => 0) bi bj bs).2.1 = bi := by
        rw [hbest, if_neg hlt]
      have e2 : (flmRow j2len i (b2j s (s.getD i ' ')) (fun _ => 0) bi bj bs).2.2.1 = bj := by
        rw [hbest, if_neg hlt]
      have e3 : (flmRow j2len i (b2j s (s.getD i ' ')) (fun _ => 0) bi bj bs).2.2.2 = bs := by
        rw [hbest, if_neg hlt]
      refine ⟨by rw [e1, e2, hB2], ?_, ?_, ?_, hp1', hp2', hp3'⟩
      · rw [e1, e3]
        exact hB3
      · rw [e3, e1]
        exact hB4
      · intro j hj
        rw [e3]
        rcases Nat.lt_succ_iff_lt_or_eq.mp hj with hj | hj
        · exact hB1 j hj
        · subst hj
          exact not_lt.mp hlt

lemma flmLoop_self (s : List Char) :
    ∀ (cnt i : Nat) (j2len : Nat → Nat) (bi bj bs : Nat),
      i + cnt = s.length → FlmInv s i j2len bi bj bs →
      (flmLoop s s 0 s.length (List.range' i cnt) j2len bi bj bs).1 =
          (flmLoop s s 0 s.length (List.range' i cnt) j2len bi bj bs).2.1 ∧
        (flmLoop s s 0 s.length (List.range' i cnt) j2len bi bj bs).1 +
          (flmLoop s s 0 s.length (List.range' i cnt) j2len bi bj bs).2.2 ≤ s.length ∧
        ((flmLoop s s 0 s.length (List.range' i cnt) j2len bi bj bs).2.2 = 0 →
          (flmLoop s s 0 s.length (List.range' i cnt) j2len bi bj bs).1 = 0) := by
  intro cnt
  induction cnt with
  | zero =>
    intro i j2len bi bj bs hn hinv
    obtain ⟨hB2, hB3, hB4, -, -, -, -⟩ := hinv
    exact ⟨hB2, hB3, hB4⟩
  | succ cnt ih =>
    intro i j2len bi bj bs hn hinv
    have hi : i < s.length := by omega
    have hrow := flm_row_self s i hi j2len bi bj bs hinv
    have hunf : flmLoop s s 0 s.length (List.range' i (cnt + 1)) j2len bi bj bs =
        flmLoop s s 0 s.length (List.range' (i + 1) cnt)
          (flmRow j2len i (jsOf s i) (fun _ => 0) bi bj bs).1
          (flmRow j2len i (jsOf s i) (fun _ => 0) bi bj bs).2.1
          (flmRow j2len i (jsOf s i) (fun _ => 0) bi bj bs).2.2.1
          (flmRow j2len i (jsOf s i) (fun _ => 0) bi bj bs).2.2.2 := rfl
    rw [hunf]
    exact ih (i + 1) _ _ _ _ (by omega) hrow

lemma extendLeft_self (s : List Char) :
    ∀ (b k : Nat), b + k ≤ s.length → (0 < k ∨ b = 0) →
      extendLeft s s 0 0 b b k = (0, 0, k + b) := by
  intro b
  induction b with
  | zero =>
    intro k _ _
    show ((0 : Nat), (0 : Nat), k) = (0, 0, k + 0)
    rw [Nat.add_zero]
  | succ b ihb =>
    intro k hbk hk
    have hk' : 0 < k := by
      rcases hk with h | h
      · exact h
      · exact absurd h (Nat.succ_ne_zero b)
    have hblt : b < s.length := by omega
    have hsome : (s.get? b).isSome := by
      rw [List.get?_eq_get hblt]
      rfl
    show (if 0 < b + 1 ∧ 0 < b + 1 ∧ (s.get? b).isSome ∧ s.get? b = s.get? (b + 1 - 1)
      then extendLeft s s 0 0 b (b + 1 - 1) (k + 1) else (b + 1, b + 1, k)) = (0, 0, k + (b + 1))
    rw [if_pos ⟨Nat.succ_pos b, Nat.succ_pos b, hsome, by rw [Nat.add_sub_cancel]⟩,
      Nat.add_sub_cancel]
    rw [ihb (k + 1) (by omega) (Or.inl (Nat.succ_pos k))]
    rw [show k + 1 + b = k + (b + 1) from by omega]

lemma extendRight_self (s : List Char) :
    ∀ (fuel bs : Nat), bs ≤ s.length → s.length ≤ bs + fuel →
      extendRight s s s.length s.length 0 0 fuel bs = s.length := by
  intro fuel
  induction fuel with
  | zero =>
    intro bs h1 h2
    show bs = s.length
    omega
  | succ fuel ihf =>
    intro bs h1 h2
    by_cases hlt : bs < s.length
    · have hsome : (s.get? (0 + bs)).isSome := by
        rw [List.get?_eq_get (by omega : 0 + bs < s.length)]
        rfl
      show (if 0 + bs < s.length ∧ 0 + bs < s.length ∧ (s.get? (0 + bs)).isSome ∧
          s.get? (0 + bs) = s.get? (0 + bs)
        then extendRight s s s.length s.length 0 0 fuel (bs + 1) else bs) = s.length
      rw [if_pos ⟨by omega, by omega, hsome, rfl⟩]
      exact ihf (bs + 1) (by omega) (by omega)
    · have hbs : bs = s.length := by omega
      show (if 0 + bs < s.length ∧ 0 + bs < s.length ∧ (s.get? (0 + bs)).isSome ∧
          s.get? (0 + bs) = s.get? (0 + bs)
        then extendRight s s s.length s.length 0 0 fuel (bs + 1) else bs) = s.length
      rw [if_neg (by omega)]
      exact hbs

/-- For the self-comparison, `find_longest_match` over the full ranges
returns the whole string as one block: whatever (diagonal) block the
dynamic program finds, the extension loops grow it to the full string. -/
lemma flm_self (s : List Char) :
    findLongestMatch s s 0 s.length 0 s.length = (0, 0, s.length) := by
  have h0 : FlmInv s 0 (fun _ => 0) 0 0 0 := by
    refine ⟨rfl, by omega, fun _ => rfl, fun j hj => absurd hj (Nat.not_lt_zero j),
      fun j => Nat.zero_le _, fun j => by rw [if_pos rfl], fun h => absurd h (lt_irrefl 0)⟩
  obtain ⟨hd, hsum, hz⟩ := flmLoop_self s s.length 0 (fun _ => 0) 0 0 0 (Nat.zero_add _) h0
  have hor : 0 < (flmLoop s s 0 s.length (List.range' 0 s.length) (fun _ => 0) 0 0 0).2.2 ∨
      (flmLoop s s 0 s.length (List.range' 0 s.length) (fun _ => 0) 0 0 0).1 = 0 := by
    rcases Nat.eq_zero_or_pos
        (flmLoop s s 0 s.length (List.range' 0 s.length) (fun _ => 0) 0 0 0).2.2 with h | h
    · exact Or.inr (hz h)
    · exact Or.inl h
  have hextL : extendLeft s s 0 0
      (flmLoop s s 0 s.length (List.range' 0 s.length) (fun _ => 0) 0 0 0).1
      (flmLoop s s 0 s.length (List.range' 0 s.length) (fun _ => 0) 0 0 0).2.1
      (flmLoop s s 0 s.length (List.range' 0 s.length) (fun _ => 0) 0 0 0).2.2 =
      (0, 0, (flmLoop s s 0 s.length (List.range' 0 s.length) (fun _ => 0) 0 0 0).2.2 +
        (flmLoop s s 0 s.length (List.range' 0 s.length) (fun _ => 0) 0 0 0).1) := by
    rw [← hd]
    exact extendLeft_self s _ _ hsum hor
  have hextR := extendRight_self s s.length
    ((flmLoop s s 0 s.length (List.range' 0 s.length) (fun _ => 0) 0 0 0).2.2 +
      (flmLoop s s 0 s.length (List.range' 0 s.length) (fun _ => 0) 0 0 0).1)
    (by omega) (by omega)
  show ((extendLeft s s 0 0
      (flmLoop s s 0 s.length (List.range' 0 (s.length - 0)) (fun _ => 0) 0 0 0).1
      (flmLoop s s 0 s.length (List.range' 0 (s.length - 0)) (fun _ => 0) 0 0 0).2.1
      (flmLoop s s 0 s.length (List.range' 0 (s.length - 0)) (fun _ => 0) 0 0 0).2.2).1,
    (extendLeft s s 0 0
      (flmLoop s s 0 s.length (List.range' 0 (s.length - 0)) (fun _ => 0) 0 0 0).1
      (flmLoop s s 0 s.length (List.range' 0 (s.length - 0)) (fun _ => 0) 0 0 0).2.1
      (flmLoop s s 0 s.length (List.range' 0 (s.length - 0)) (fun _ => 0) 0 0 0).2.2).2.1,
    extendRight s s s.length s.length
      (extendLeft s s 0 0
        (flmLoop s s 0 s.length (List.range' 0 (s.length - 0)) (fun _ => 0) 0 0 0).1
        (flmLoop s s 0 s.length (List.range' 0 (s.length - 0)) (fun _ => 0) 0 0 0).2.1
        (flmLoop s s 0 s.length (List.range' 0 (s.length - 0)) (fun _ => 0) 0 0 0).2.2).1
      (extendLeft s s 0 0
        (flmLoop s s 0 s.length (List.range' 0 (s.length - 0)) (fun _ => 0) 0 0 0).1
        (flmLoop s s 0 s.length (List.range' 0 (s.length - 0)) (fun _ => 0) 0 0 0).2.1
        (flmLoop s s 0 s.length (List.range' 0 (s.length - 0)) (fun _ => 0) 0 0 0).2.2).2.1
      s.length
      (extendLeft s s 0 0
        (flmLoop s s 0 s.length (List.range' 0 (s.length - 0)) (fun _ => 0) 0 0 0).1
        (flmLoop s s 0 s.length (List.range' 0 (s.length - 0)) (fun _ => 0) 0 0 0).2.1
        (flmLoop s s 0 s.length (List.range' 0 (s.length - 0)) (fun _ => 0) 0 0 0).2.2).2.2)
    = ((0 : Nat), (0 : Nat), s.length)
  rw [Nat.sub_zero, hextL]
  exact congrArg (fun z => ((0 : Nat), (0 : Nat), z)) hextR

lemma matchTotal_self (s : List Char) (hne : s ≠ []) : matchTotal s s = s.length := by
  have hn : 0 < s.length := List.length_pos.mpr hne
  unfold matchTotal
  rw [show s.length + s.length + 1 = s.length + s.length + 1 from rfl]
  rw [matchingBlocksAux]
  simp only [flm_self, Prod.fst, Prod.snd]
  rw [if_neg (by omega : ¬s.length = 0)]
  rw [if_neg (by omega : ¬((0 : Nat) < 0 ∧ (0 : Nat) < 0))]
  rw [if_neg (by omega : ¬(0 + s.length < s.length ∧ 0 + s.length < s.length))]
  simp

lemma seqSim_self (s : List Char) (hne : s ≠ []) : seqSim s s = 1 := by
  have hn : 0 < s.length := List.length_pos.mpr hne
  unfold seqSim
  rw [if_neg (by omega), matchTotal_self s hne]
  have hq : ((s.length : ℚ)) ≠ 0 := Nat.cast_ne_zero.mpr (by omega)
  field_simp
  ring

lemma tokenizeAux_ne_nil_acc : ∀ (l acc : List Char), acc ≠ [] → tokenizeAux l acc ≠ [] := by
  intro l
  induction l with
  | nil =>
    intro acc hacc
    show (if acc.isEmpty then [] else [String.mk acc.reverse]) ≠ []
    rw [if_neg (by simpa [List.isEmpty_iff] using hacc)]
    simp
  | cons c cs ih =>
    intro acc hacc
    show (if isWordChar c then tokenizeAux cs (c :: acc)
      else if acc.isEmpty then tokenizeAux cs []
      else String.mk acc.reverse :: tokenizeAux cs []) ≠ []
    by_cases hw : isWordChar c
    · rw [if_pos hw]
      exact ih (c :: acc) (List.cons_ne_nil c acc)
    · rw [if_neg hw, if_neg (by simpa [List.isEmpty_iff] using hacc)]
      simp

lemma tokenizeAux_ne_nil : ∀ (l : List Char), (∃ c ∈ l, isWordChar c) →
    ∀ acc, tokenizeAux l acc ≠ [] := by
  intro l
  induction l with
  | nil =>
    intro h
    obtain ⟨c, hc, -⟩ := h
    exact absurd hc (List.not_mem_nil c)
  | cons c cs ih =>
    intro h acc
    show (if isWordChar c then tokenizeAux cs (c :: acc)
      else if acc.isEmpty then tokenizeAux cs []
      else String.mk acc.reverse :: tokenizeAux cs []) ≠ []
    by_cases hw : isWordChar c
    · rw [if_pos hw]
      exact tokenizeAux_ne_nil_acc cs (c :: acc) (List.cons_ne_nil _ _)
    · obtain ⟨x, hx, hxw⟩ := h
      have hx' : x ∈ cs := by
        rcases List.mem_cons.mp hx with h | h
        · subst h
          exact absurd hxw hw
        · exact h
      rw [if_neg hw]
      by_cases hacc : acc.isEmpty
      · rw [if_pos hacc]
        exact ih ⟨x, hx', hxw⟩ []
      · rw [if_neg hacc]
        simp

lemma tokenOverlap_self (a : String) (h : wordTokens (lowerStr a) ≠ []) :
    tokenOverlap a a = 1 := by
  unfold tokenOverlap tokInter tokUnion
  rw [Finset.inter_self, Finset.union_self]
  have hpos : 0 < (wordTokens (lowerStr a)).toFinset.card := by
    rw [Finset.card_pos]
    obtain ⟨x, xs, hx⟩ := List.exists_cons_of_ne_nil h
    exact ⟨x, by rw [hx]; exact List.mem_toFinset.mpr (List.mem_cons_self x xs)⟩
  rw [Nat.max_eq_left hpos]
  exact div_self (Nat.cast_ne_zero.mpr (Nat.pos_iff_ne_zero.mp hpos))

/-- C7 (amended): the scorer is reflexive at every string containing at
least one word character: `score(a, a) = 1.0` there.  (For a non-empty `a`
with no word character the token component is `0` and the score is `0.5`.) -/
theorem C7_amended (a : String) (hne : a ≠ "")
    (hw : ∃ c ∈ a.data, isWordChar c.toLower) :
    token_similarity a a = 1 := by
  have htok : wordTokens (lowerStr a) ≠ [] := by
    unfold wordTokens
    apply tokenizeAux_ne_nil
    obtain ⟨c, hc, hcw⟩ := hw
    exact ⟨c.toLower,
      by
        show c.toLower ∈ a.data.map Char.toLower
        exact List.mem_map_of_mem Char.toLower hc,
      hcw⟩
  have hdata : (lowerStr a).data ≠ [] := by
    intro h
    have h' : a.data.map Char.toLower = [] := h
    rw [List.map_eq_nil_iff] at h'
    exact hne (String.ext h')
  unfold token_similarity
  rw [tokenOverlap_self a htok, seqSim_self (lowerStr a).data hdata]
  norm_num

/-- Witness for C7 (amended) at a concrete input. -/
theorem C7_amended_witness :
    ("ab" : String) ≠ "" ∧ (∃ c ∈ ("ab" : String).data, isWordChar c.toLower) ∧
      token_similarity "ab" "ab" = 1 :=
  ⟨by decide, by decide, C7_amended "ab" (by decide) (by decide)⟩
